import Mathlib

/-!
# Verification of the player-props comparison core (src/streamlit_app.py)

Shallow embedding of the two core functions of the repository:

* `process_market_data` (the View Builder, lines 94-149): merges a list of
  raw odds documents into a player-centric view;
* `get_odds_changes` (the Reconciler, lines 165-298): compares, per market
  and per event, the two most recent snapshot files and collects the line
  and price changes.

JSON documents are modelled by structures holding exactly the fields the
two functions read.  Fields the code reads with `dict.get` (and fields it
guards with `'k' in d`) are `Option`s; fields it reads with brackets and
never guards are plain.  Numbers are rationals.  A Python `KeyError` is
`Except.error ()`.  Python dicts are insertion-ordered association lists,
Python sets are duplicate-free lists.  `os.listdir`, the filename regex and
`json.load` belong to the file-system collaborator: `get_odds_changes` here
receives, per market, the listing entries (filename, parsed event/date
pair, document) that the real function derives from the directory.
-/

/-- One outcome object of a market in the raw document.  All four fields
are read via `get` or guarded by `in` somewhere in the code, so all are
optional. -/
structure Outcome where
  name : Option String
  description : Option String
  point : Option Rat
  price : Option Rat
  deriving DecidableEq

/-- One market object of a bookmaker.  `key` is only ever read with
brackets (line 230); `last_update` is read with brackets at line 134 but
with `get` at line 294, so it is optional and the bracket read can fail. -/
structure Market where
  key : String
  last_update : Option String
  outcomes : List Outcome
  deriving DecidableEq

/-- One bookmaker object: `title` is read with brackets (lines 108, 216),
`markets` with `get` defaulting to `[]`. -/
structure Bookmaker where
  title : String
  markets : List Market
  deriving DecidableEq

/-- One odds document (one event, one market type, one capture): the
event-level fields are read with brackets, `bookmakers` with `get`. -/
structure EventData where
  id : String
  home_team : String
  away_team : String
  commence_time : String
  bookmakers : List Bookmaker
  deriving DecidableEq

/-- The event info recorded in the view (lines 99-104). -/
structure EventInfo where
  id : String
  home_team : String
  away_team : String
  commence_time : String
  deriving DecidableEq

/-- The per-(player, event, bookmaker) cell of the view (lines 130-135):
`line`/`over`/`under` start as `None`, `last_update` is set from the
market when the cell is created. -/
structure BookmakerOdds where
  line : Option Rat
  over : Option Rat
  under : Option Rat
  last_update : String
  deriving DecidableEq

/-- The per-event part of a player's view (lines 124-127). -/
structure EventEntry where
  info : EventInfo
  bookmakers : List (String × BookmakerOdds)
  deriving DecidableEq

/-- One player's view (lines 117-120): the events dict and the accumulated
bookmaker-name set (a duplicate-free list, sorted at the end). -/
structure PlayerEntry where
  events : List (String × EventEntry)
  bookmakers : List String
  deriving DecidableEq

/-- The `players_data` state: a Python dict player name → entry. -/
abbrev PlayersData := List (String × PlayerEntry)

/-- Python dict read: the value at the first matching key. -/
def alGet {α : Type} (l : List (String × α)) (k : String) : Option α :=
  match l with
  | [] => none
  | (k', v) :: t => if k' = k then some v else alGet t k

/-- Python dict write: replace the value at the first matching key in
place, or append the binding (dicts are insertion-ordered). -/
def alSet {α : Type} (l : List (String × α)) (k : String) (v : α) :
    List (String × α) :=
  match l with
  | [] => [(k, v)]
  | (k', v') :: t => if k' = k then (k, v) :: t else (k', v') :: alSet t k v

/-- Python set add, on a duplicate-free list. -/
def addSet (l : List String) (s : String) : List String :=
  if s ∈ l then l else l ++ [s]

/-- Lexicographic comparison of character lists by code point, the order
Python's `sorted`/`sort` uses on strings. -/
def lexLe : List Char → List Char → Bool
  | [], _ => true
  | _ :: _, [] => false
  | a :: as, b :: bs => if a < b then true else if b < a then false else lexLe as bs

/-- Python string comparison. -/
def strLe (a b : String) : Bool := lexLe a.data b.data

/-- Stable insertion into a sorted list: placed before the first element it
is `le`-below-or-tied-with, as Python's stable sort orders ties. -/
def insertLe {α : Type} (le : α → α → Bool) (x : α) : List α → List α
  | [] => [x]
  | y :: ys => if le x y then x :: y :: ys else y :: insertLe le x ys

/-- Stable insertion sort, the embedding of Python's `sorted`/`list.sort`. -/
def sortWith {α : Type} (le : α → α → Bool) : List α → List α
  | [] => []
  | x :: xs => insertLe le x (sortWith le xs)

/-- Python `sorted(list(s))` on a set of strings (line 147). -/
def sortStrings (l : List String) : List String := sortWith strLe l

/-- A Python for-loop over `l` whose body may raise: the first exception
aborts the whole call. -/
def foldE {α β : Type} (f : β → α → Except Unit β) : β → List α → Except Unit β
  | b, [] => .ok b
  | b, a :: l =>
    match f b a with
    | .ok b' => foldE f b' l
    | .error e => .error e

/-- The player's entry, or the fresh one lines 116-120 insert when the
player is new. -/
def pEntryOf (players_data : PlayersData) (player_name : String) : PlayerEntry :=
  (alGet players_data player_name).getD { events := [], bookmakers := [] }

/-- The player's per-event entry, or the fresh one lines 123-127 insert
when the event is new for this player. -/
def eEntryOf (event_info : EventInfo) (pEntry : PlayerEntry) (event_id : String) :
    EventEntry :=
  (alGet pEntry.events event_id).getD { info := event_info, bookmakers := [] }

/-- Body of the innermost loop of `process_market_data` (lines 111-143):
merge one outcome into `players_data`.  An outcome with no or an empty
`description` is skipped.  `Except.error` is a `KeyError`: a market with no
`last_update` when the bookmaker cell is first created (line 134), an
outcome with no `name` (line 139), an `Over` outcome with no `point` or no
`price` (lines 140-141), an `Under` outcome with no `price` (line 143). -/
def processOutcome (event_info : EventInfo) (event_id bookmaker_name : String)
    (market : Market) (players_data : PlayersData) (outcome : Outcome) :
    Except Unit PlayersData :=
  let player_name := outcome.description.getD ""
  if player_name = "" then .ok players_data
  else
    let pEntry := pEntryOf players_data player_name
    let eEntry := eEntryOf event_info pEntry event_id
    let bOld : Except Unit BookmakerOdds :=
      match alGet eEntry.bookmakers bookmaker_name with
      | some b => .ok b
      | none =>
        match market.last_update with
        | none => .error ()
        | some t => .ok { line := none, over := none, under := none, last_update := t }
    match bOld with
    | .error e => .error e
    | .ok b0 =>
      let bNew : Except Unit BookmakerOdds :=
        match outcome.name with
        | none => .error ()
        | some n =>
          if n = "Over" then
            match outcome.point, outcome.price with
            | some pt, some pr => .ok { b0 with line := some pt, over := some pr }
            | _, _ => .error ()
          else if n = "Under" then
            match outcome.price with
            | some pr => .ok { b0 with under := some pr }
            | none => .error ()
          else .ok b0
      match bNew with
      | .error e => .error e
      | .ok b1 =>
        let eEntry1 := { eEntry with bookmakers := alSet eEntry.bookmakers bookmaker_name b1 }
        let pEntry1 : PlayerEntry :=
          { events := alSet pEntry.events event_id eEntry1,
            bookmakers := addSet pEntry.bookmakers bookmaker_name }
        .ok (alSet players_data player_name pEntry1)

/-- Loop over one market's outcomes (line 111). -/
def processMarket (event_info : EventInfo) (event_id bookmaker_name : String)
    (players_data : PlayersData) (market : Market) : Except Unit PlayersData :=
  foldE (processOutcome event_info event_id bookmaker_name market)
    players_data market.outcomes

/-- Loop over one bookmaker's markets (line 110). -/
def processBookmaker (event_info : EventInfo) (event_id : String)
    (players_data : PlayersData) (bookmaker : Bookmaker) : Except Unit PlayersData :=
  foldE (processMarket event_info event_id bookmaker.title)
    players_data bookmaker.markets

/-- Loop over one document's bookmakers (lines 98-143). -/
def processEvent (players_data : PlayersData) (event_data : EventData) :
    Except Unit PlayersData :=
  let event_info : EventInfo :=
    { id := event_data.id, home_team := event_data.home_team,
      away_team := event_data.away_team, commence_time := event_data.commence_time }
  foldE (processBookmaker event_info event_data.id) players_data event_data.bookmakers

/-- The merge pass of `process_market_data` over the document list, before
the final sorting of the bookmaker sets. -/
def processEventList (players_data : PlayersData) (data_list : List EventData) :
    Except Unit PlayersData :=
  foldE processEvent players_data data_list

/-- The function `process_market_data` (lines 94-149): merge all documents, then replace
each player's bookmaker set by its sorted list. -/
def process_market_data (data_list : List EventData) : Except Unit PlayersData :=
  match processEventList [] data_list with
  | .error e => .error e
  | .ok pd =>
    .ok (pd.map fun pe =>
      (pe.1, { events := pe.2.events, bookmakers := sortStrings pe.2.bookmakers }))

/-- The view cell of one (player, event, bookmaker) triple. -/
def lookupTriple (pd : PlayersData) (player event_id bookmaker_name : String) :
    Option BookmakerOdds :=
  match alGet pd player with
  | none => none
  | some pe =>
    match alGet pe.events event_id with
    | none => none
    | some ee => alGet ee.bookmakers bookmaker_name

/-- One detected change (lines 267-272 and 280-285). -/
structure FieldChange where
  type : String
  previous : Rat
  current : Rat
  difference : Rat
  deriving DecidableEq

/-- The event info attached to a change record (lines 208-212). -/
structure ChangeEvent where
  id : String
  home_team : String
  away_team : String
  deriving DecidableEq

/-- One change record (lines 289-296). -/
structure ChangeRecord where
  player : String
  bookmaker : String
  bet_type : String
  event : ChangeEvent
  latest_update : Option String
  changes : List FieldChange
  deriving DecidableEq

/-- The `changes` dict of `get_odds_changes` (lines 167-171), keyed by the
three market names. -/
structure ChangesDict where
  player_points : List ChangeRecord
  player_rebounds : List ChangeRecord
  player_assists : List ChangeRecord
  deriving DecidableEq

/-- All records of the dict, in bucket order. -/
def dictRecords (d : ChangesDict) : List ChangeRecord :=
  d.player_points ++ d.player_rebounds ++ d.player_assists

/-- Line 289, `changes[market_key].append(rec)`: `Except.error` is the
`KeyError` raised when `market_key` is none of the three initial keys. -/
def appendChange (changes : ChangesDict) (market_key : String) (rec : ChangeRecord) :
    Except Unit ChangesDict :=
  if market_key = "player_points" then
    .ok { changes with player_points := changes.player_points ++ [rec] }
  else if market_key = "player_rebounds" then
    .ok { changes with player_rebounds := changes.player_rebounds ++ [rec] }
  else if market_key = "player_assists" then
    .ok { changes with player_assists := changes.player_assists ++ [rec] }
  else .error ()

/-- A linear search returning the first element satisfying the test and
then breaking, the loop shape of lines 219-223, 233-237 and 249-253. -/
def findFirst {α : Type} (p : α → Bool) : List α → Option α
  | [] => none
  | x :: rest => if p x then some x else findFirst p rest

/-- Lines 219-223: the first bookmaker of the older document with this
title. -/
def findOlderBookmaker (l : List Bookmaker) (t : String) : Option Bookmaker :=
  findFirst (fun bm => bm.title = t) l

/-- Lines 233-237: the first market of the older bookmaker with this key. -/
def findOlderMarket (l : List Market) (k : String) : Option Market :=
  findFirst (fun m => m.key = k) l

/-- Lines 249-253: the first outcome of the older market whose
`description` equals the (non-empty) player name and whose optional `name`
equals the newest outcome's optional `name` (`o.get` on both sides, so two
missing names are equal). -/
def findOlderOutcome (l : List Outcome) (d : String) (n : Option String) :
    Option Outcome :=
  findFirst (fun o => o.description = some d ∧ o.name = n) l

/-- Lines 258-285: the field changes of one matched outcome pair.  A kind
is compared only when both sides carry the field, and reported only when
the two values differ. -/
def diffOutcome (outcome older_outcome : Outcome) : List FieldChange :=
  let cd : List FieldChange :=
    match outcome.point, older_outcome.point with
    | some new_point, some old_point =>
      if new_point ≠ old_point then
        [{ type := "line", previous := old_point, current := new_point,
           difference := new_point - old_point }]
      else []
    | _, _ => []
  match outcome.price, older_outcome.price with
  | some new_price, some old_price =>
    if new_price ≠ old_price then
      cd ++ [{ type := "odds", previous := old_price, current := new_price,
               difference := new_price - old_price }]
    else cd
  | _, _ => cd

/-- Lines 243-296: compare one newest outcome against the matched older
market, appending at most one record. -/
def compareOutcome (event_info : ChangeEvent) (bookmaker_name : String)
    (market_data older_market : Market) (changes : ChangesDict) (outcome : Outcome) :
    Except Unit ChangesDict :=
  let player_name := outcome.description.getD ""
  if player_name = "" then .ok changes
  else
    match findOlderOutcome older_market.outcomes player_name outcome.name with
    | none => .ok changes
    | some older_outcome =>
      let changes_detected := diffOutcome outcome older_outcome
      if changes_detected = [] then .ok changes
      else
        appendChange changes market_data.key
          { player := player_name, bookmaker := bookmaker_name,
            bet_type := outcome.name.getD "", event := event_info,
            latest_update := market_data.last_update, changes := changes_detected }

/-- Lines 229-296: compare one newest market. -/
def compareMarket (event_info : ChangeEvent) (bookmaker_name : String)
    (older_bookmaker : Bookmaker) (changes : ChangesDict) (market_data : Market) :
    Except Unit ChangesDict :=
  match findOlderMarket older_bookmaker.markets market_data.key with
  | none => .ok changes
  | some older_market =>
    foldE (compareOutcome event_info bookmaker_name market_data older_market)
      changes market_data.outcomes

/-- Lines 215-296: compare one newest bookmaker. -/
def compareBookmaker (event_info : ChangeEvent) (older_data : EventData)
    (changes : ChangesDict) (bookmaker : Bookmaker) : Except Unit ChangesDict :=
  match findOlderBookmaker older_data.bookmakers bookmaker.title with
  | none => .ok changes
  | some older_bookmaker =>
    foldE (compareMarket event_info bookmaker.title older_bookmaker)
      changes bookmaker.markets

/-- Lines 203-296: compare a newest/older document pair, appending detected
records onto the running dict. -/
def compareData (changes : ChangesDict) (newest_data older_data : EventData) :
    Except Unit ChangesDict :=
  let event_info : ChangeEvent :=
    { id := newest_data.id, home_team := newest_data.home_team,
      away_team := newest_data.away_team }
  foldE (compareBookmaker event_info older_data) changes newest_data.bookmakers

/-- One entry of the directory listing filtered to one market (line 175):
the filename, the regex parse (event name, date) when the filename matches
(lines 182-185), and the document the file holds.  Listing the directory,
the regex and `json.load` are the file-system collaborator. -/
structure OddsFile where
  fname : String
  parse : Option (String × String)
  data : EventData
  deriving DecidableEq

/-- A grouped file: its date, filename and document (the code keeps
`(date, file)` tuples and re-opens the file). -/
abbrev GroupEntry := String × String × EventData

/-- Append to the event's bucket, first-seen key order (lines 187-190). -/
def groupInsert (groups : List (String × List GroupEntry)) (event_name : String)
    (e : GroupEntry) : List (String × List GroupEntry) :=
  match groups with
  | [] => [(event_name, [e])]
  | (k, l) :: t =>
    if k = event_name then (k, l ++ [e]) :: t else (k, l) :: groupInsert t event_name e

/-- Lines 180-190: group a market's files by the event name parsed from the
filename; files the regex does not match are dropped. -/
def groupFiles (files : List OddsFile) : List (String × List GroupEntry) :=
  files.foldl
    (fun gs f =>
      match f.parse with
      | none => gs
      | some pr => groupInsert gs pr.1 (pr.2, f.fname, f.data))
    []

/-- Python tuple comparison for `sort(reverse=True)` on `(date, file)`:
`a` is placed no later than `b` iff `(a.date, a.fname)` is lexicographically
at least `(b.date, b.fname)`. -/
def entryGe (a b : GroupEntry) : Bool :=
  if a.1 = b.1 then strLe b.2.1 a.2.1 else strLe b.1 a.1

/-- Line 198: the event's files sorted newest first. -/
def sortFilesDesc (l : List GroupEntry) : List GroupEntry := sortWith entryGe l

/-- Lines 193-296, body of the per-event loop: skip the event when it has
fewer than two files, else compare the two most recent ones. -/
def compareEventFiles (changes : ChangesDict) (g : String × List GroupEntry) :
    Except Unit ChangesDict :=
  if g.2.length < 2 then .ok changes
  else
    match sortFilesDesc g.2 with
    | e1 :: e2 :: _ => compareData changes e1.2.2 e2.2.2
    | _ => .ok changes

/-- Lines 174-296, body of the per-market loop: skip the market when it has
fewer than two files, else group by event and compare per event. -/
def marketChanges (changes : ChangesDict) (files : List OddsFile) :
    Except Unit ChangesDict :=
  if files.length < 2 then .ok changes
  else foldE compareEventFiles changes (groupFiles files)

/-- The function `get_odds_changes` (lines 165-298): start from the empty dict and run
the per-market loop over the three markets' file listings. -/
def get_odds_changes (points_files rebounds_files assists_files : List OddsFile) :
    Except Unit ChangesDict :=
  match marketChanges
      { player_points := [], player_rebounds := [], player_assists := [] }
      points_files with
  | .error e => .error e
  | .ok c1 =>
    match marketChanges c1 rebounds_files with
    | .error e => .error e
    | .ok c2 => marketChanges c2 assists_files

/-- Specification-side reading of §4.2: the bookmaker titles that carry
some outcome naming this player anywhere in the input documents. -/
def seenBookmakers (data_list : List EventData) (player : String) : List String :=
  data_list.flatMap fun ev =>
    ev.bookmakers.flatMap fun bm =>
      if bm.markets.any (fun m => m.outcomes.any fun o =>
          o.description.getD "" == player)
      then [bm.title] else []

/-- The bookmaker titles of the outcomes naming this player, once per
outcome, in processing order. -/
def marketMentions (bookmaker_name : String) (m : Market) (player : String) :
    List String :=
  m.outcomes.flatMap fun o =>
    if o.description.getD "" = player then [bookmaker_name] else []

/-- Per-bookmaker mention list. -/
def bookmakerMentions (bm : Bookmaker) (player : String) : List String :=
  bm.markets.flatMap fun m => marketMentions bm.title m player

/-- Per-document mention list. -/
def eventMentions (ev : EventData) (player : String) : List String :=
  ev.bookmakers.flatMap fun bm => bookmakerMentions bm player

/-- Whole-input mention list. -/
def listMentions (data_list : List EventData) (player : String) : List String :=
  data_list.flatMap fun ev => eventMentions ev player

/-! ## Library of small lemmas about the dict, set, loop and sort helpers -/

theorem alGet_alSet_self {α : Type} (l : List (String × α)) (k : String) (v : α) :
    alGet (alSet l k v) k = some v := by
  induction l with
  | nil => simp [alSet, alGet]
  | cons h t ih =>
    obtain ⟨k', v'⟩ := h
    by_cases hk : k' = k
    · simp [alSet, alGet, hk]
    · simp [alSet, alGet, hk, ih]

theorem alGet_alSet_ne {α : Type} (l : List (String × α)) (k q : String) (v : α)
    (h : q ≠ k) : alGet (alSet l k v) q = alGet l q := by
  have hkq : ¬ k = q := fun hh => h hh.symm
  induction l with
  | nil => simp [alSet, alGet, hkq]
  | cons hd t ih =>
    obtain ⟨k', v'⟩ := hd
    by_cases hk : k' = k
    · subst hk
      simp [alSet, alGet, hkq]
    · simp only [alSet, if_neg hk]
      by_cases hq : k' = q
      · simp [alGet, hq]
      · simp [alGet, hq, ih]

theorem mem_addSet (l : List String) (s t : String) :
    t ∈ addSet l s ↔ t ∈ l ∨ t = s := by
  unfold addSet
  by_cases h : s ∈ l
  · simp only [if_pos h]
    constructor
    · exact fun ht => Or.inl ht
    · rintro (ht | rfl)
      · exact ht
      · exact h
  · simp [if_neg h]

theorem addSet_nodup (l : List String) (s : String) (h : l.Nodup) :
    (addSet l s).Nodup := by
  unfold addSet
  by_cases hs : s ∈ l
  · simpa [if_pos hs]
  · simp [if_neg hs, List.nodup_append, h, hs]

theorem alGet_map {α β : Type} (f : α → β) (l : List (String × α)) (k : String) :
    alGet (l.map fun p => (p.1, f p.2)) k = (alGet l k).map f := by
  induction l with
  | nil => simp [alGet]
  | cons hd t ih =>
    obtain ⟨k', v'⟩ := hd
    by_cases hk : k' = k
    · simp [alGet, hk]
    · simp [alGet, hk, ih]

theorem foldE_append {α β : Type} (f : β → α → Except Unit β) (l₁ l₂ : List α)
    (b : β) :
    foldE f b (l₁ ++ l₂) =
      match foldE f b l₁ with
      | .ok b' => foldE f b' l₂
      | .error e => .error e := by
  induction l₁ generalizing b with
  | nil => simp [foldE]
  | cons a t ih =>
    simp only [List.cons_append, foldE]
    cases f b a with
    | ok b' => exact ih b'
    | error e => rfl

theorem foldE_pres {α β : Type} {P : β → Prop} (f : β → α → Except Unit β)
    (hf : ∀ b a b', P b → f b a = .ok b' → P b') :
    ∀ (l : List α) (b b' : β), P b → foldE f b l = .ok b' → P b' := by
  intro l
  induction l with
  | nil =>
    intro b b' hb h
    simp only [foldE, Except.ok.injEq] at h
    exact h ▸ hb
  | cons a t ih =>
    intro b b' hb h
    simp only [foldE] at h
    cases hfa : f b a with
    | ok b₁ =>
      rw [hfa] at h
      exact ih b₁ b' (hf b a b₁ hb hfa) h
    | error e => rw [hfa] at h; cases h

theorem foldE_origin {α β γ : Type} (R : β → List γ) (Q : α → γ → Prop)
    (f : β → α → Except Unit β)
    (hf : ∀ b a b', f b a = .ok b' → ∀ r ∈ R b', r ∈ R b ∨ Q a r) :
    ∀ (l : List α) (b b' : β), foldE f b l = .ok b' →
      ∀ r ∈ R b', r ∈ R b ∨ ∃ a ∈ l, Q a r := by
  intro l
  induction l with
  | nil =>
    intro b b' h r hr
    simp only [foldE, Except.ok.injEq] at h
    exact Or.inl (h ▸ hr)
  | cons a t ih =>
    intro b b' h r hr
    simp only [foldE] at h
    cases hfa : f b a with
    | ok b₁ =>
      rw [hfa] at h
      rcases ih b₁ b' h r hr with h₁ | ⟨a', ha', hq⟩
      · rcases hf b a b₁ hfa r h₁ with h₂ | hq
        · exact Or.inl h₂
        · exact Or.inr ⟨a, List.mem_cons_self a t, hq⟩
      · exact Or.inr ⟨a', List.mem_cons_of_mem a ha', hq⟩
    | error e => rw [hfa] at h; cases h

theorem mem_foldl_addSet (l : List String) (b : List String) (t : String) :
    t ∈ List.foldl addSet b l ↔ t ∈ b ∨ t ∈ l := by
  induction l generalizing b with
  | nil => simp
  | cons a as ih =>
    simp only [List.foldl_cons, ih, mem_addSet, List.mem_cons]
    tauto

theorem foldl_addSet_nodup (l : List String) (b : List String) (h : b.Nodup) :
    (List.foldl addSet b l).Nodup := by
  induction l generalizing b with
  | nil => simpa
  | cons a as ih => exact ih (addSet b a) (addSet_nodup b a h)

theorem lexLe_total (a b : List Char) : lexLe a b = true ∨ lexLe b a = true := by
  induction a generalizing b with
  | nil => exact Or.inl rfl
  | cons x xs ih =>
    cases b with
    | nil => exact Or.inr rfl
    | cons y ys =>
      rcases lt_trichotomy x y with h | h | h
      · exact Or.inl (by simp [lexLe, h])
      · subst h
        rcases ih ys with h' | h'
        · exact Or.inl (by simp [lexLe, lt_irrefl, h'])
        · exact Or.inr (by simp [lexLe, lt_irrefl, h'])
      · exact Or.inr (by simp [lexLe, h])

theorem lexLe_trans (a b c : List Char) (hab : lexLe a b = true)
    (hbc : lexLe b c = true) : lexLe a c = true := by
  induction a generalizing b c with
  | nil => rfl
  | cons x xs ih =>
    cases b with
    | nil => simp [lexLe] at hab
    | cons y ys =>
      cases c with
      | nil => simp [lexLe] at hbc
      | cons z zs =>
        rcases lt_trichotomy x y with hxy | hxy | hxy
        · rcases lt_trichotomy y z with hyz | hyz | hyz
          · simp [lexLe, lt_trans hxy hyz]
          · subst hyz; simp [lexLe, hxy]
          · simp only [lexLe, if_neg (lt_asymm hyz), if_pos hyz] at hbc
            cases hbc
        · subst hxy
          rcases lt_trichotomy x z with hyz | hyz | hyz
          · simp [lexLe, hyz]
          · subst hyz
            simp only [lexLe, lt_irrefl, if_neg (lt_irrefl x)] at hab hbc ⊢
            exact ih ys zs hab hbc
          · simp only [lexLe, if_neg (lt_asymm hyz), if_pos hyz] at hbc
            cases hbc
        · simp only [lexLe, if_neg (lt_asymm hxy), if_pos hxy] at hab
          cases hab

theorem lexLe_antisymm (a b : List Char) (hab : lexLe a b = true)
    (hba : lexLe b a = true) : a = b := by
  induction a generalizing b with
  | nil =>
    cases b with
    | nil => rfl
    | cons y ys => simp [lexLe] at hba
  | cons x xs ih =>
    cases b with
    | nil => simp [lexLe] at hab
    | cons y ys =>
      rcases lt_trichotomy x y with hxy | hxy | hxy
      · simp only [lexLe, if_neg (lt_asymm hxy), if_pos hxy] at hba
        cases hba
      · subst hxy
        simp only [lexLe, if_neg (lt_irrefl x)] at hab hba
        rw [ih ys hab hba]
      · simp only [lexLe, if_neg (lt_asymm hxy), if_pos hxy] at hab
        cases hab

theorem strLe_total (a b : String) : strLe a b = true ∨ strLe b a = true :=
  lexLe_total a.data b.data

theorem strLe_trans (a b c : String) (hab : strLe a b = true)
    (hbc : strLe b c = true) : strLe a c = true :=
  lexLe_trans a.data b.data c.data hab hbc

theorem strLe_antisymm (a b : String) (hab : strLe a b = true)
    (hba : strLe b a = true) : a = b := by
  have h := lexLe_antisymm a.data b.data hab hba
  cases a
  cases b
  exact congrArg String.mk h

theorem mem_insertLe {α : Type} (le : α → α → Bool) (x z : α) (l : List α) :
    z ∈ insertLe le x l ↔ z = x ∨ z ∈ l := by
  induction l with
  | nil => simp [insertLe]
  | cons y ys ih =>
    unfold insertLe
    by_cases h : le x y = true
    · simp [h]
    · simp only [Bool.not_eq_true] at h
      simp only [h, Bool.false_eq_true, if_false, List.mem_cons, ih]
      tauto

theorem insertLe_perm {α : Type} (le : α → α → Bool) (x : α) (l : List α) :
    (insertLe le x l).Perm (x :: l) := by
  induction l with
  | nil => simp [insertLe]
  | cons y ys ih =>
    unfold insertLe
    by_cases h : le x y = true
    · simp [h]
    · simp only [Bool.not_eq_true] at h
      simp only [h, Bool.false_eq_true, if_false]
      exact (ih.cons y).trans (List.Perm.swap x y ys)

theorem sortWith_perm {α : Type} (le : α → α → Bool) (l : List α) :
    (sortWith le l).Perm l := by
  induction l with
  | nil => simp [sortWith]
  | cons x xs ih =>
    unfold sortWith
    exact (insertLe_perm le x (sortWith le xs)).trans (ih.cons x)

theorem insertLe_pairwise {α : Type} (le : α → α → Bool)
    (htot : ∀ a b : α, le a b = true ∨ le b a = true)
    (htrans : ∀ a b c : α, le a b = true → le b c = true → le a c = true)
    (x : α) (l : List α) (h : l.Pairwise fun a b => le a b = true) :
    (insertLe le x l).Pairwise fun a b => le a b = true := by
  induction l with
  | nil => simp [insertLe]
  | cons y ys ih =>
    rcases List.pairwise_cons.mp h with ⟨hy, hys⟩
    unfold insertLe
    by_cases hxy : le x y = true
    · simp only [if_pos hxy]
      refine List.pairwise_cons.mpr ⟨?_, h⟩
      intro z hz
      rcases List.mem_cons.mp hz with rfl | hz'
      · exact hxy
      · exact htrans x y z hxy (hy z hz')
    · simp only [Bool.not_eq_true] at hxy
      simp only [hxy, Bool.false_eq_true, if_false]
      refine List.pairwise_cons.mpr ⟨?_, ih hys⟩
      intro z hz
      rcases (mem_insertLe le x z ys).mp hz with rfl | hz'
      · rcases htot z y with h' | h'
        · rw [h'] at hxy; cases hxy
        · exact h'
      · exact hy z hz'

theorem sortWith_pairwise {α : Type} (le : α → α → Bool)
    (htot : ∀ a b : α, le a b = true ∨ le b a = true)
    (htrans : ∀ a b c : α, le a b = true → le b c = true → le a c = true)
    (l : List α) : (sortWith le l).Pairwise fun a b => le a b = true := by
  induction l with
  | nil => simp [sortWith]
  | cons x xs ih =>
    unfold sortWith
    exact insertLe_pairwise le htot htrans x (sortWith le xs) ih

theorem eq_of_pairwise_perm {α : Type} (le : α → α → Bool)
    (hanti : ∀ a b : α, le a b = true → le b a = true → a = b) :
    ∀ (l₁ l₂ : List α), l₁.Perm l₂ →
      (l₁.Pairwise fun a b => le a b = true) →
      (l₂.Pairwise fun a b => le a b = true) → l₁ = l₂ := by
  intro l₁
  induction l₁ with
  | nil =>
    intro l₂ hp _ _
    exact (List.Perm.nil_eq hp).symm ▸ rfl
  | cons x xs ih =>
    intro l₂ hp h₁ h₂
    cases l₂ with
    | nil => exact absurd hp.symm (by simp)
    | cons y ys =>
      rcases List.pairwise_cons.mp h₁ with ⟨hx, hxs⟩
      rcases List.pairwise_cons.mp h₂ with ⟨hy, hys⟩
      have hxy : x = y := by
        have hxmem : x ∈ y :: ys := hp.mem_iff.mp (List.mem_cons_self x xs)
        have hymem : y ∈ x :: xs := hp.symm.mem_iff.mp (List.mem_cons_self y ys)
        rcases List.mem_cons.mp hxmem with h | h
        · exact h
        · rcases List.mem_cons.mp hymem with h' | h'
          · exact h'.symm
          · exact hanti x y (hx y h') (hy x h)
      subst hxy
      have hp' : xs.Perm ys := hp.cons_inv
      rw [ih ys hp' hxs hys]

theorem sortStrings_eq_of_mem (l₁ l₂ : List String) (h₁ : l₁.Nodup)
    (h₂ : l₂.Nodup) (hm : ∀ t, t ∈ l₁ ↔ t ∈ l₂) :
    sortStrings l₁ = sortStrings l₂ := by
  have hperm : l₁.Perm l₂ := by
    refine List.perm_of_nodup_nodup_toFinset_eq h₁ h₂ ?_
    ext t
    simp only [List.mem_toFinset]
    exact hm t
  have hp : (sortStrings l₁).Perm (sortStrings l₂) :=
    ((sortWith_perm strLe l₁).trans hperm).trans (sortWith_perm strLe l₂).symm
  exact eq_of_pairwise_perm strLe strLe_antisymm _ _ hp
    (sortWith_pairwise strLe strLe_total strLe_trans l₁)
    (sortWith_pairwise strLe strLe_total strLe_trans l₂)

theorem findFirst_eq_some_iff {α : Type} (p : α → Bool) (l : List α) (x : α) :
    findFirst p l = some x ↔
      ∃ l₁ l₂, l = l₁ ++ x :: l₂ ∧ p x = true ∧ ∀ y ∈ l₁, p y = false := by
  induction l with
  | nil =>
    simp only [findFirst]
    constructor
    · intro h; cases h
    · rintro ⟨l₁, l₂, h, -, -⟩
      exact absurd h.symm (List.append_ne_nil_of_right_ne_nil l₁ (List.cons_ne_nil x l₂))
  | cons a rest ih =>
    unfold findFirst
    by_cases hp : p a = true
    · simp only [if_pos hp]
      constructor
      · intro h
        cases h
        exact ⟨[], rest, rfl, hp, by simp⟩
      · rintro ⟨l₁, l₂, heq, hpx, hno⟩
        cases l₁ with
        | nil =>
          simp only [List.nil_append, List.cons.injEq] at heq
          rw [heq.1]
        | cons b l₁' =>
          simp only [List.cons_append, List.cons.injEq] at heq
          have hb := hno b (List.mem_cons_self b l₁')
          rw [← heq.1] at hb
          rw [hp] at hb
          cases hb
    · simp only [Bool.not_eq_true] at hp
      simp only [hp, Bool.false_eq_true, if_false, ih]
      constructor
      · rintro ⟨l₁, l₂, heq, hpx, hno⟩
        refine ⟨a :: l₁, l₂, by rw [heq]; rfl, hpx, ?_⟩
        intro y hy
        rcases List.mem_cons.mp hy with rfl | hy'
        · exact hp
        · exact hno y hy'
      · rintro ⟨l₁, l₂, heq, hpx, hno⟩
        cases l₁ with
        | nil =>
          simp only [List.nil_append, List.cons.injEq] at heq
          rw [← heq.1] at hpx
          rw [hpx] at hp
          cases hp
        | cons b l₁' =>
          simp only [List.cons_append, List.cons.injEq] at heq
          refine ⟨l₁', l₂, heq.2, hpx, ?_⟩
          intro y hy
          exact hno y (List.mem_cons_of_mem b hy)

theorem findFirst_mem {α : Type} (p : α → Bool) (l : List α) (x : α)
    (h : findFirst p l = some x) : x ∈ l ∧ p x = true := by
  rcases (findFirst_eq_some_iff p l x).mp h with ⟨l₁, l₂, heq, hpx, -⟩
  subst heq
  exact ⟨List.mem_append_right l₁ (List.mem_cons_self x l₂), hpx⟩

/-! ## The two halves of `diffOutcome` -/

/-- The line part of lines 262-272, for stating C1. -/
def lineChanges (outcome older_outcome : Outcome) : List FieldChange :=
  match outcome.point, older_outcome.point with
  | some new_point, some old_point =>
    if new_point ≠ old_point then
      [{ type := "line", previous := old_point, current := new_point,
         difference := new_point - old_point }]
    else []
  | _, _ => []

/-- The odds part of lines 275-285, for stating C1. -/
def oddsChanges (outcome older_outcome : Outcome) : List FieldChange :=
  match outcome.price, older_outcome.price with
  | some new_price, some old_price =>
    if new_price ≠ old_price then
      [{ type := "odds", previous := old_price, current := new_price,
         difference := new_price - old_price }]
    else []
  | _, _ => []

theorem diffOutcome_eq_parts (outcome older_outcome : Outcome) :
    diffOutcome outcome older_outcome =
      lineChanges outcome older_outcome ++ oddsChanges outcome older_outcome := by
  unfold diffOutcome lineChanges oddsChanges
  rcases hnr : outcome.price with _ | u
  · simp
  · rcases hor : older_outcome.price with _ | v
    · simp
    · by_cases huv : u = v
      · subst huv; simp
      · simp [huv]

theorem lineChanges_spec (outcome older_outcome : Outcome) :
    (∀ fc ∈ lineChanges outcome older_outcome, fc.type = "line") ∧
    (lineChanges outcome older_outcome ≠ [] ↔
      ∃ x y, outcome.point = some x ∧ older_outcome.point = some y ∧ x ≠ y) := by
  unfold lineChanges
  rcases hnp : outcome.point with _ | x
  · simp
  · rcases hop : older_outcome.point with _ | y
    · simp
    · by_cases hxy : x = y
      · subst hxy; simp
      · simp [hxy]

theorem oddsChanges_spec (outcome older_outcome : Outcome) :
    (∀ fc ∈ oddsChanges outcome older_outcome, fc.type = "odds") ∧
    (oddsChanges outcome older_outcome ≠ [] ↔
      ∃ x y, outcome.price = some x ∧ older_outcome.price = some y ∧ x ≠ y) := by
  unfold oddsChanges
  rcases hnp : outcome.price with _ | x
  · simp
  · rcases hop : older_outcome.price with _ | y
    · simp
    · by_cases hxy : x = y
      · subst hxy; simp
      · simp [hxy]

/-- C1: for a matched outcome pair, a Line FieldChange is emitted iff both
sides carry a `point` and the values differ, and an Odds FieldChange is
emitted iff both sides carry a `price` and the values differ; a side
lacking the field suppresses that comparison. -/
theorem C1_field_change_iff (outcome older_outcome : Outcome) :
    ((∃ fc ∈ diffOutcome outcome older_outcome, fc.type = "line") ↔
      ∃ x y, outcome.point = some x ∧ older_outcome.point = some y ∧ x ≠ y) ∧
    ((∃ fc ∈ diffOutcome outcome older_outcome, fc.type = "odds") ↔
      ∃ x y, outcome.price = some x ∧ older_outcome.price = some y ∧ x ≠ y) := by
  have hline := lineChanges_spec outcome older_outcome
  have hodds := oddsChanges_spec outcome older_outcome
  rw [diffOutcome_eq_parts]
  constructor
  · constructor
    · rintro ⟨fc, hmem, hty⟩
      rcases List.mem_append.mp hmem with hm | hm
      · refine hline.2.mp ?_
        intro h0
        rw [h0] at hm
        cases hm
      · have hto : fc.type = "odds" := hodds.1 fc hm
        rw [hty] at hto
        exact absurd hto (by decide)
    · rintro ⟨x, y, hx, hy, hne⟩
      obtain ⟨fc, hfc⟩ :=
        List.exists_mem_of_ne_nil _ (hline.2.mpr ⟨x, y, hx, hy, hne⟩)
      exact ⟨fc, List.mem_append_left _ hfc, hline.1 fc hfc⟩
  · constructor
    · rintro ⟨fc, hmem, hty⟩
      rcases List.mem_append.mp hmem with hm | hm
      · have htl : fc.type = "line" := hline.1 fc hm
        rw [hty] at htl
        exact absurd htl (by decide)
      · refine hodds.2.mp ?_
        intro h0
        rw [h0] at hm
        cases hm
    · rintro ⟨x, y, hx, hy, hne⟩
      obtain ⟨fc, hfc⟩ :=
        List.exists_mem_of_ne_nil _ (hodds.2.mpr ⟨x, y, hx, hy, hne⟩)
      exact ⟨fc, List.mem_append_right _ hfc, hodds.1 fc hfc⟩

/-- C9: an outcome whose `description` is missing or empty is skipped by
both the View Builder's merge step and the Reconciler's comparison step: it
leaves the state untouched and can produce no record. -/
theorem C9_empty_description_skipped :
    (∀ (ei : EventInfo) (eid bn : String) (mkt : Market) (pd : PlayersData)
        (o : Outcome), o.description = none ∨ o.description = some "" →
      processOutcome ei eid bn mkt pd o = .ok pd) ∧
    (∀ (ei : ChangeEvent) (bn : String) (md om : Market) (ch : ChangesDict)
        (o : Outcome), o.description = none ∨ o.description = some "" →
      compareOutcome ei bn md om ch o = .ok ch) := by
  constructor
  · intro ei eid bn mkt pd o h
    unfold processOutcome
    rcases h with h | h <;> rw [h] <;> rfl
  · intro ei bn md om ch o h
    unfold compareOutcome
    rcases h with h | h <;> rw [h] <;> rfl

/-- Witness for C9 at concrete inputs. -/
theorem C9_empty_description_skipped_w :
    processOutcome ⟨"E1", "H", "A", "T0"⟩ "E1" "BookA"
        ⟨"player_points", some "T1", []⟩ [] ⟨some "Over", none, some 25, some 2⟩ =
      .ok [] ∧
    compareOutcome ⟨"E1", "H", "A"⟩ "BookA" ⟨"player_points", some "T1", []⟩
        ⟨"player_points", some "T1", []⟩ ⟨[], [], []⟩
        ⟨some "Over", some "", some 25, some 2⟩ =
      .ok ⟨[], [], []⟩ :=
  ⟨C9_empty_description_skipped.1 _ _ _ _ _ _ (Or.inl rfl),
   C9_empty_description_skipped.2 _ _ _ _ _ _ (Or.inr rfl)⟩

/-- C4: a market with fewer than two files, and an event key with fewer
than two files, are silently skipped: the running dict is returned
unchanged and no error is raised, so other keys are unaffected; when every
market has fewer than two files the whole result is the empty dict. -/
theorem C4_insufficient_history_skipped :
    (∀ (changes : ChangesDict) (files : List OddsFile), files.length < 2 →
       marketChanges changes files = .ok changes) ∧
    (∀ (changes : ChangesDict) (g : String × List GroupEntry), g.2.length < 2 →
       compareEventFiles changes g = .ok changes) ∧
    (∀ (pf rf af : List OddsFile), pf.length < 2 → rf.length < 2 →
       af.length < 2 → get_odds_changes pf rf af = .ok ⟨[], [], []⟩) := by
  have hm : ∀ (ch : ChangesDict) (files : List OddsFile), files.length < 2 →
      marketChanges ch files = .ok ch := by
    intro ch files h
    unfold marketChanges
    rw [if_pos h]
  refine ⟨hm, ?_, ?_⟩
  · intro ch g h
    unfold compareEventFiles
    rw [if_pos h]
  · intro pf rf af h1 h2 h3
    unfold get_odds_changes
    simp only [hm _ pf h1, hm _ rf h2, hm _ af h3]

/-- Witness for C4 at concrete inputs: one market has a single file. -/
theorem C4_insufficient_history_skipped_w :
    get_odds_changes
        [⟨"f1", some ("Ha_vs_Aw", "2024-01-01"), ⟨"E1", "Ha", "Aw", "T", []⟩⟩]
        [] [] = .ok ⟨[], [], []⟩ :=
  C4_insufficient_history_skipped.2.2 _ _ _ (by decide) (by decide) (by decide)

/-! ## C2: records are only emitted with at least one field change -/

/-- Every record of the dict carries at least one field change. -/
def GoodDict (d : ChangesDict) : Prop := ∀ rec ∈ dictRecords d, rec.changes ≠ []

theorem mem_appendChange (d : ChangesDict) (key : String) (rec : ChangeRecord)
    (d' : ChangesDict) (h : appendChange d key rec = .ok d') (r : ChangeRecord) :
    r ∈ dictRecords d' ↔ r ∈ dictRecords d ∨ r = rec := by
  unfold appendChange at h
  split_ifs at h <;> cases h <;> simp [dictRecords] <;> tauto

theorem compareOutcome_good (ei : ChangeEvent) (bn : String) (md om : Market)
    (ch : ChangesDict) (o : Outcome) (ch' : ChangesDict)
    (h : compareOutcome ei bn md om ch o = .ok ch') (hg : GoodDict ch) :
    GoodDict ch' := by
  simp only [compareOutcome] at h
  by_cases hdesc : o.description.getD "" = ""
  · rw [if_pos hdesc] at h
    cases h
    exact hg
  · rw [if_neg hdesc] at h
    cases hf : findOlderOutcome om.outcomes (o.description.getD "") o.name with
    | none => simp only [hf] at h; cases h; exact hg
    | some oo =>
      simp only [hf] at h
      by_cases hdiff : diffOutcome o oo = []
      · rw [if_pos hdiff] at h
        cases h
        exact hg
      · rw [if_neg hdiff] at h
        intro r hr
        rcases (mem_appendChange ch md.key _ ch' h r).mp hr with hm | rfl
        · exact hg r hm
        · exact hdiff

theorem compareMarket_good (ei : ChangeEvent) (bn : String) (ob : Bookmaker)
    (ch : ChangesDict) (md : Market) (ch' : ChangesDict)
    (h : compareMarket ei bn ob ch md = .ok ch') (hg : GoodDict ch) :
    GoodDict ch' := by
  unfold compareMarket at h
  cases hf : findOlderMarket ob.markets md.key with
  | none => simp only [hf] at h; cases h; exact hg
  | some om =>
    simp only [hf] at h
    exact foldE_pres _
      (fun b a b' hb hba => compareOutcome_good ei bn md om b a b' hba hb)
      _ _ _ hg h

theorem compareBookmaker_good (ei : ChangeEvent) (od : EventData)
    (ch : ChangesDict) (bm : Bookmaker) (ch' : ChangesDict)
    (h : compareBookmaker ei od ch bm = .ok ch') (hg : GoodDict ch) :
    GoodDict ch' := by
  unfold compareBookmaker at h
  cases hf : findOlderBookmaker od.bookmakers bm.title with
  | none => simp only [hf] at h; cases h; exact hg
  | some ob =>
    simp only [hf] at h
    exact foldE_pres _
      (fun b a b' hb hba => compareMarket_good ei bm.title ob b a b' hba hb)
      _ _ _ hg h

theorem compareData_good (ch : ChangesDict) (nd od : EventData)
    (ch' : ChangesDict) (h : compareData ch nd od = .ok ch') (hg : GoodDict ch) :
    GoodDict ch' := by
  unfold compareData at h
  exact foldE_pres _
    (fun b a b' hb hba => compareBookmaker_good _ od b a b' hba hb)
    _ _ _ hg h

theorem compareEventFiles_good (ch : ChangesDict) (g : String × List GroupEntry)
    (ch' : ChangesDict) (h : compareEventFiles ch g = .ok ch') (hg : GoodDict ch) :
    GoodDict ch' := by
  unfold compareEventFiles at h
  split_ifs at h with hlen
  · cases h; exact hg
  · cases hs : sortFilesDesc g.2 with
    | nil => simp only [hs] at h; cases h; exact hg
    | cons e1 rest =>
      cases rest with
      | nil => simp only [hs] at h; cases h; exact hg
      | cons e2 rest2 =>
        simp only [hs] at h
        exact compareData_good ch _ _ ch' h hg

theorem marketChanges_good (ch : ChangesDict) (files : List OddsFile)
    (ch' : ChangesDict) (h : marketChanges ch files = .ok ch') (hg : GoodDict ch) :
    GoodDict ch' := by
  unfold marketChanges at h
  split_ifs at h with hlen
  · cases h; exact hg
  · exact foldE_pres _
      (fun b a b' hb hba => compareEventFiles_good b a b' hba hb)
      _ _ _ hg h

/-- C2: every record `get_odds_changes` returns carries at least one
FieldChange, and a matched outcome pair with detected changes yields one
single appended record carrying all of them together, with `bet_type` the
outcome's name and `latest_update` the newest market's timestamp. -/
theorem C2_one_record_with_changes :
    (∀ (pf rf af : List OddsFile) (d : ChangesDict),
       get_odds_changes pf rf af = .ok d →
       ∀ rec ∈ dictRecords d, rec.changes ≠ []) ∧
    (∀ (ei : ChangeEvent) (bn : String) (md om : Market) (ch : ChangesDict)
       (o oo : Outcome), o.description.getD "" ≠ "" →
       findOlderOutcome om.outcomes (o.description.getD "") o.name = some oo →
       diffOutcome o oo ≠ [] →
       compareOutcome ei bn md om ch o =
         appendChange ch md.key
           { player := o.description.getD "", bookmaker := bn,
             bet_type := o.name.getD "", event := ei,
             latest_update := md.last_update, changes := diffOutcome o oo }) := by
  constructor
  · intro pf rf af d h
    unfold get_odds_changes at h
    have hg0 : GoodDict { player_points := [], player_rebounds := [], player_assists := [] } := by
      intro r hr
      simp [dictRecords] at hr
    cases h1 : marketChanges
        { player_points := [], player_rebounds := [], player_assists := [] } pf with
    | error e => simp only [h1] at h; cases h
    | ok c1 =>
      simp only [h1] at h
      cases h2 : marketChanges c1 rf with
      | error e => simp only [h2] at h; cases h
      | ok c2 =>
        simp only [h2] at h
        exact marketChanges_good c2 af d h
          (marketChanges_good c1 rf c2 h2 (marketChanges_good _ pf c1 h1 hg0))
  · intro ei bn md om ch o oo hdesc hfind hdiff
    simp only [compareOutcome]
    rw [if_neg hdesc]
    simp only [hfind]
    rw [if_neg hdiff]

/-- Witness for C2 at concrete inputs. -/
theorem C2_one_record_with_changes_w :
    (∀ rec ∈ dictRecords ⟨[], [], []⟩, rec.changes ≠ []) ∧
    compareOutcome ⟨"E1", "H", "A"⟩ "BookA"
        ⟨"player_points", some "T2",
          [⟨some "Over", some "John Doe", some 25, some 190⟩]⟩
        ⟨"player_points", some "T1",
          [⟨some "Over", some "John Doe", some 25, some 185⟩]⟩
        ⟨[], [], []⟩ ⟨some "Over", some "John Doe", some 25, some 190⟩ =
      appendChange ⟨[], [], []⟩ "player_points"
        { player := "John Doe", bookmaker := "BookA", bet_type := "Over",
          event := ⟨"E1", "H", "A"⟩, latest_update := some "T2",
          changes := diffOutcome ⟨some "Over", some "John Doe", some 25, some 190⟩
            ⟨some "Over", some "John Doe", some 25, some 185⟩ } :=
  ⟨C2_one_record_with_changes.1 [] [] [] ⟨[], [], []⟩ rfl,
   C2_one_record_with_changes.2 _ _ _ _ _ _ _ (by decide) rfl (by decide)⟩

/-! ## C3: matching is by first name equality; unmatched entities yield no record -/

theorem findOlderBookmaker_mem (l : List Bookmaker) (t : String) (bm : Bookmaker)
    (h : findOlderBookmaker l t = some bm) : bm ∈ l ∧ bm.title = t := by
  have hm := findFirst_mem _ l bm h
  exact ⟨hm.1, of_decide_eq_true hm.2⟩

theorem findOlderMarket_mem (l : List Market) (k : String) (m : Market)
    (h : findOlderMarket l k = some m) : m ∈ l ∧ m.key = k := by
  have hm := findFirst_mem _ l m h
  exact ⟨hm.1, of_decide_eq_true hm.2⟩

theorem findOlderOutcome_mem (l : List Outcome) (d : String) (n : Option String)
    (o : Outcome) (h : findOlderOutcome l d n = some o) :
    o ∈ l ∧ o.description = some d ∧ o.name = n := by
  have hm := findFirst_mem _ l o h
  exact ⟨hm.1, of_decide_eq_true hm.2⟩

theorem compareOutcome_origin (ei : ChangeEvent) (bn : String) (md om : Market)
    (ch : ChangesDict) (o : Outcome) (ch' : ChangesDict)
    (h : compareOutcome ei bn md om ch o = .ok ch') :
    ∀ r ∈ dictRecords ch', r ∈ dictRecords ch ∨
      (r.player = o.description.getD "" ∧ r.player ≠ "" ∧ r.bookmaker = bn ∧
       r.bet_type = o.name.getD "" ∧
       ∃ oo, findOlderOutcome om.outcomes r.player o.name = some oo) := by
  simp only [compareOutcome] at h
  by_cases hdesc : o.description.getD "" = ""
  · rw [if_pos hdesc] at h
    cases h
    exact fun r hr => Or.inl hr
  · rw [if_neg hdesc] at h
    cases hf : findOlderOutcome om.outcomes (o.description.getD "") o.name with
    | none =>
      simp only [hf] at h
      cases h
      exact fun r hr => Or.inl hr
    | some oo =>
      simp only [hf] at h
      by_cases hdiff : diffOutcome o oo = []
      · rw [if_pos hdiff] at h
        cases h
        exact fun r hr => Or.inl hr
      · rw [if_neg hdiff] at h
        intro r hr
        rcases (mem_appendChange ch md.key _ ch' h r).mp hr with hm | rfl
        · exact Or.inl hm
        · exact Or.inr ⟨rfl, hdesc, rfl, rfl, oo, hf⟩

theorem compareMarket_origin (ei : ChangeEvent) (bn : String) (ob : Bookmaker)
    (ch : ChangesDict) (md : Market) (ch' : ChangesDict)
    (h : compareMarket ei bn ob ch md = .ok ch') :
    ∀ r ∈ dictRecords ch', r ∈ dictRecords ch ∨
      (∃ om, findOlderMarket ob.markets md.key = some om ∧
       ∃ o ∈ md.outcomes, r.player = o.description.getD "" ∧ r.player ≠ "" ∧
         r.bookmaker = bn ∧ r.bet_type = o.name.getD "" ∧
         ∃ oo, findOlderOutcome om.outcomes r.player o.name = some oo) := by
  unfold compareMarket at h
  cases hf : findOlderMarket ob.markets md.key with
  | none =>
    simp only [hf] at h
    cases h
    exact fun r hr => Or.inl hr
  | some om =>
    simp only [hf] at h
    intro r hr
    rcases foldE_origin dictRecords
        (fun o r => r.player = o.description.getD "" ∧ r.player ≠ "" ∧
          r.bookmaker = bn ∧ r.bet_type = o.name.getD "" ∧
          ∃ oo, findOlderOutcome om.outcomes r.player o.name = some oo)
        _ (fun b a b' hba => compareOutcome_origin ei bn md om b a b' hba)
        md.outcomes ch ch' h r hr with hm | ⟨a, ha, hq⟩
    · exact Or.inl hm
    · exact Or.inr ⟨om, rfl, a, ha, hq⟩

theorem compareBookmaker_origin (ei : ChangeEvent) (od : EventData)
    (ch : ChangesDict) (bm : Bookmaker) (ch' : ChangesDict)
    (h : compareBookmaker ei od ch bm = .ok ch') :
    ∀ r ∈ dictRecords ch', r ∈ dictRecords ch ∨
      (r.bookmaker = bm.title ∧
       ∃ ob, findOlderBookmaker od.bookmakers bm.title = some ob ∧
       ∃ md ∈ bm.markets, ∃ om, findOlderMarket ob.markets md.key = some om ∧
       ∃ o ∈ md.outcomes, r.player = o.description.getD "" ∧ r.player ≠ "" ∧
         r.bet_type = o.name.getD "" ∧
         ∃ oo, findOlderOutcome om.outcomes r.player o.name = some oo) := by
  unfold compareBookmaker at h
  cases hf : findOlderBookmaker od.bookmakers bm.title with
  | none =>
    simp only [hf] at h
    cases h
    exact fun r hr => Or.inl hr
  | some ob =>
    simp only [hf] at h
    intro r hr
    rcases foldE_origin dictRecords
        (fun md r => ∃ om, findOlderMarket ob.markets md.key = some om ∧
          ∃ o ∈ md.outcomes, r.player = o.description.getD "" ∧ r.player ≠ "" ∧
            r.bookmaker = bm.title ∧ r.bet_type = o.name.getD "" ∧
            ∃ oo, findOlderOutcome om.outcomes r.player o.name = some oo)
        _ (fun b a b' hba => compareMarket_origin ei bm.title ob b a b' hba)
        bm.markets ch ch' h r hr with hm | ⟨md, hmd, om, hom, o, ho, h1, h2, h3, h4, hoo⟩
    · exact Or.inl hm
    · exact Or.inr ⟨h3, ob, rfl, md, hmd, om, hom, o, ho, h1, h2, h4, hoo⟩

theorem compareData_origin (ch : ChangesDict) (nd od : EventData)
    (ch' : ChangesDict) (h : compareData ch nd od = .ok ch') :
    ∀ r ∈ dictRecords ch', r ∈ dictRecords ch ∨
      (∃ nb ∈ nd.bookmakers, r.bookmaker = nb.title ∧
       ∃ ob, findOlderBookmaker od.bookmakers nb.title = some ob ∧
       ∃ md ∈ nb.markets, ∃ om, findOlderMarket ob.markets md.key = some om ∧
       ∃ o ∈ md.outcomes, r.player = o.description.getD "" ∧ r.player ≠ "" ∧
         r.bet_type = o.name.getD "" ∧
         ∃ oo, findOlderOutcome om.outcomes r.player o.name = some oo) := by
  unfold compareData at h
  intro r hr
  rcases foldE_origin dictRecords
      (fun bm r => r.bookmaker = bm.title ∧
        ∃ ob, findOlderBookmaker od.bookmakers bm.title = some ob ∧
        ∃ md ∈ bm.markets, ∃ om, findOlderMarket ob.markets md.key = some om ∧
        ∃ o ∈ md.outcomes, r.player = o.description.getD "" ∧ r.player ≠ "" ∧
          r.bet_type = o.name.getD "" ∧
          ∃ oo, findOlderOutcome om.outcomes r.player o.name = some oo)
      _ (fun b a b' hba => compareBookmaker_origin _ od b a b' hba)
      nd.bookmakers ch ch' h r hr with hm | ⟨nb, hnb, hq⟩
  · exact Or.inl hm
  · exact Or.inr ⟨nb, hnb, hq⟩

/-- C3: bookmakers are matched to the first prior bookmaker with the same
title, markets to the first prior market with the same key, outcomes to the
first prior outcome with the same (description, name); and every record a
snapshot comparison appends comes from entities present in both snapshots,
so an entity present in only one of the two produces no record. -/
theorem C3_first_match_and_presence :
    (∀ (l : List Bookmaker) (t : String) (bm : Bookmaker),
       findOlderBookmaker l t = some bm ↔
         ∃ l₁ l₂, l = l₁ ++ bm :: l₂ ∧ bm.title = t ∧ ∀ x ∈ l₁, ¬ x.title = t) ∧
    (∀ (l : List Market) (k : String) (m : Market),
       findOlderMarket l k = some m ↔
         ∃ l₁ l₂, l = l₁ ++ m :: l₂ ∧ m.key = k ∧ ∀ x ∈ l₁, ¬ x.key = k) ∧
    (∀ (l : List Outcome) (d : String) (n : Option String) (o : Outcome),
       findOlderOutcome l d n = some o ↔
         ∃ l₁ l₂, l = l₁ ++ o :: l₂ ∧ (o.description = some d ∧ o.name = n) ∧
           ∀ x ∈ l₁, ¬ (x.description = some d ∧ x.name = n)) ∧
    (∀ (ch : ChangesDict) (nd od : EventData) (ch' : ChangesDict),
       compareData ch nd od = .ok ch' →
       ∀ r ∈ dictRecords ch', r ∈ dictRecords ch ∨
         ∃ nb ∈ nd.bookmakers, ∃ ob ∈ od.bookmakers,
           nb.title = r.bookmaker ∧ ob.title = r.bookmaker ∧
           ∃ nm ∈ nb.markets, ∃ om ∈ ob.markets, om.key = nm.key ∧
           ∃ no ∈ nm.outcomes, ∃ oo ∈ om.outcomes,
             no.description.getD "" = r.player ∧ r.player ≠ "" ∧
             oo.description = some r.player ∧ oo.name = no.name ∧
             no.name.getD "" = r.bet_type) := by
  refine ⟨?_, ?_, ?_, ?_⟩
  · intro l t bm
    unfold findOlderBookmaker
    rw [findFirst_eq_some_iff]
    simp only [decide_eq_true_eq, decide_eq_false_iff_not]
  · intro l k m
    unfold findOlderMarket
    rw [findFirst_eq_some_iff]
    simp only [decide_eq_true_eq, decide_eq_false_iff_not]
  · intro l d n o
    unfold findOlderOutcome
    rw [findFirst_eq_some_iff]
    simp only [decide_eq_true_eq, decide_eq_false_iff_not]
  · intro ch nd od ch' h r hr
    rcases compareData_origin ch nd od ch' h r hr with hm | hq
    · exact Or.inl hm
    · obtain ⟨nb, hnb, hbt, ob, hob, md, hmd, om, hom, o, ho, h1, h2, h3, oo, hoo⟩ := hq
      have hobm := findOlderBookmaker_mem _ _ _ hob
      have homm := findOlderMarket_mem _ _ _ hom
      have hoom := findOlderOutcome_mem _ _ _ _ hoo
      exact Or.inr ⟨nb, hnb, ob, hobm.1, hbt.symm, hobm.2.trans hbt.symm,
        md, hmd, om, homm.1, homm.2, o, ho, oo, hoom.1, h1.symm, h2,
        hoom.2.1, hoom.2.2, h3.symm⟩

/-! ## C5: partial outcomes are not retained; bracket reads raise -/

theorem lookupTriple_some_split (pd : PlayersData) (p eid bn : String)
    (b : BookmakerOdds) (h : lookupTriple pd p eid bn = some b) :
    ∃ pe ee, alGet pd p = some pe ∧ alGet pe.events eid = some ee ∧
      alGet ee.bookmakers bn = some b := by
  unfold lookupTriple at h
  cases hp : alGet pd p with
  | none => rw [hp] at h; cases h
  | some pe =>
    rw [hp] at h
    cases he : alGet pe.events eid with
    | none =>
      simp only [he] at h
      cases h
    | some ee =>
      simp only [he] at h
      exact ⟨pe, ee, rfl, he, h⟩

theorem lookupTriple_none_cell (pd : PlayersData) (p eid bn : String)
    (ei : EventInfo) (h : lookupTriple pd p eid bn = none) :
    alGet (eEntryOf ei (pEntryOf pd p) eid).bookmakers bn = none := by
  unfold lookupTriple at h
  unfold eEntryOf pEntryOf
  cases hp : alGet pd p with
  | none => simp [alGet]
  | some pe =>
    rw [hp] at h
    cases he : alGet pe.events eid with
    | none => simp [he, alGet]
    | some ee =>
      simp only [he] at h
      simp [he, h]

theorem lookupTriple_alSet_self (pd : PlayersData) (p eid bn : String)
    (ev : List (String × EventEntry)) (ee1 : EventEntry) (B : List String) :
    lookupTriple (alSet pd p { events := alSet ev eid ee1, bookmakers := B })
        p eid bn = alGet ee1.bookmakers bn := by
  unfold lookupTriple
  rw [alGet_alSet_self]
  simp only
  rw [alGet_alSet_self]

/-- The C5 counterexample inputs: an Over outcome with a point but no
price, and a market with no last_update holding an Under outcome. -/
def docMissingPrice : EventData :=
  ⟨"E1", "Ha", "Aw", "T0",
    [⟨"BookA", [⟨"player_points", some "T1",
      [⟨some "Over", some "John Doe", some 25, none⟩]⟩]⟩]⟩

/-- Companion C5 input: market without last_update. -/
def docMissingUpdate : EventData :=
  ⟨"E1", "Ha", "Aw", "T0",
    [⟨"BookA", [⟨"player_points", none,
      [⟨some "Under", some "John Doe", none, some 2⟩]⟩]⟩]⟩

/-- C5 counterexample: an Over outcome lacking `price`, and a market
lacking `last_update`, are not retained with absent fields — both make
`process_market_data` raise (KeyError), contradicting the claim. -/
theorem C5_cex_partial_outcome_raises :
    process_market_data [docMissingPrice] = .error () ∧
    process_market_data [docMissingUpdate] = .error () :=
  ⟨rfl, rfl⟩

/-- C5 amended: a partial outcome is not retained gracefully.  An `Over`
outcome lacking `point` or `price` raises, an `Under` outcome lacking
`price` raises, and a market lacking `last_update` raises when the
(player, event, bookmaker) cell is first created; absence is kept only for
fields never assigned — a cell created by an `Under` outcome keeps `line`
and `over` absent. -/
theorem C5_amended_partial_outcome_raises :
    (∀ (ei : EventInfo) (eid bn : String) (mkt : Market) (pd : PlayersData)
        (o : Outcome), o.description.getD "" ≠ "" → o.name = some "Over" →
        o.point = none ∨ o.price = none →
        processOutcome ei eid bn mkt pd o = .error ()) ∧
    (∀ (ei : EventInfo) (eid bn : String) (mkt : Market) (pd : PlayersData)
        (o : Outcome), o.description.getD "" ≠ "" → o.name = some "Under" →
        o.price = none →
        processOutcome ei eid bn mkt pd o = .error ()) ∧
    (∀ (ei : EventInfo) (eid bn : String) (mkt : Market) (pd : PlayersData)
        (o : Outcome), o.description.getD "" ≠ "" →
        lookupTriple pd (o.description.getD "") eid bn = none →
        mkt.last_update = none →
        processOutcome ei eid bn mkt pd o = .error ()) ∧
    (∀ (ei : EventInfo) (eid bn : String) (mkt : Market) (pd : PlayersData)
        (o : Outcome) (pd' : PlayersData) (b : BookmakerOdds),
        o.description.getD "" ≠ "" → o.name = some "Under" →
        lookupTriple pd (o.description.getD "") eid bn = none →
        processOutcome ei eid bn mkt pd o = .ok pd' →
        lookupTriple pd' (o.description.getD "") eid bn = some b →
        b.line = none ∧ b.over = none) := by
  refine ⟨?_, ?_, ?_, ?_⟩
  · intro ei eid bn mkt pd o hdesc hname hpp
    simp only [processOutcome]
    rw [if_neg hdesc]
    split
    · rfl
    · rcases hpp with hp | hp
      · cases hq : o.price <;> simp [hname, hp, hq]
      · cases hq : o.point <;> simp [hname, hp, hq]
  · intro ei eid bn mkt pd o hdesc hname hp
    simp only [processOutcome]
    rw [if_neg hdesc]
    split
    · rfl
    · simp [hname, hp]
  · intro ei eid bn mkt pd o hdesc hnone hlu
    have hcell := lookupTriple_none_cell pd (o.description.getD "") eid bn ei hnone
    simp only [processOutcome]
    rw [if_neg hdesc]
    rw [hcell]
    simp only [hlu]
  · intro ei eid bn mkt pd o pd' b hdesc hname hnone h hlook
    have hcell := lookupTriple_none_cell pd (o.description.getD "") eid bn ei hnone
    simp only [processOutcome] at h
    rw [if_neg hdesc] at h
    rw [hcell] at h
    cases hlu : mkt.last_update with
    | none =>
      simp only [hlu] at h
      cases h
    | some t =>
      simp only [hlu] at h
      rcases hpr : o.price with _ | pr
      · simp [hname, hpr] at h
      · simp [hname, hpr] at h
        subst h
        simp only [lookupTriple_alSet_self, alGet_alSet_self] at hlook
        cases hlook
        exact ⟨rfl, rfl⟩

/-! ## C6: outcomes with unknown names are not skipped -/

/-- C6 counterexample input for the View Builder: a single outcome whose
name is "Foo". -/
def docUnknownName : EventData :=
  ⟨"E1", "Ha", "Aw", "T0",
    [⟨"BookA", [⟨"player_points", some "T1",
      [⟨some "Foo", some "John Doe", some 25, some 2⟩]⟩]⟩]⟩

/-- C6 counterexample inputs for the Reconciler: the same "Foo" outcome
with a price move from 2 to 3. -/
def docUnknownNameNew : EventData :=
  ⟨"E1", "Ha", "Aw", "T0",
    [⟨"BookA", [⟨"player_points", some "T2",
      [⟨some "Foo", some "John Doe", none, some 3⟩]⟩]⟩]⟩

/-- The prior snapshot for the Reconciler side of the C6 counterexample. -/
def docUnknownNameOld : EventData :=
  ⟨"E1", "Ha", "Aw", "T0",
    [⟨"BookA", [⟨"player_points", some "T1",
      [⟨some "Foo", some "John Doe", none, some 2⟩]⟩]⟩]⟩

/-- C6 counterexample: an outcome named "Foo" is not skipped.  The View
Builder creates the bookmaker cell (all values absent) and extends the
player's bookmaker set to ["BookA"], and the Reconciler emits a
ChangeRecord with bet_type "Foo" when its price moves. -/
theorem C6_cex_unknown_name_not_skipped :
    process_market_data [docUnknownName] =
      .ok [("John Doe",
        ⟨[("E1", ⟨⟨"E1", "Ha", "Aw", "T0"⟩, [("BookA", ⟨none, none, none, "T1"⟩)]⟩)],
         ["BookA"]⟩)] ∧
    get_odds_changes
        [⟨"f2", some ("E", "2024-01-02"), docUnknownNameNew⟩,
         ⟨"f1", some ("E", "2024-01-01"), docUnknownNameOld⟩] [] [] =
      .ok ⟨[⟨"John Doe", "BookA", "Foo", ⟨"E1", "Ha", "Aw"⟩, some "T2",
        [⟨"odds", 2, 3, 3 - 2⟩]⟩], [], []⟩ :=
  ⟨rfl, rfl⟩

/-- C6 amended: an outcome whose name is neither "Over" nor "Under" skips
only the value assignment: the (player, event, bookmaker) cell is still
created (or left as it was) and the player's bookmaker set still gains the
bookmaker, and the Reconciler still emits a record with that name as
bet_type when the matched pair's point or price differs. -/
theorem C6_amended_unknown_name_still_contributes :
    (∀ (ei : EventInfo) (eid bn : String) (mkt : Market) (pd : PlayersData)
        (o : Outcome) (n : String) (b : BookmakerOdds),
       o.description.getD "" ≠ "" → o.name = some n →
       ¬ n = "Over" → ¬ n = "Under" →
       lookupTriple pd (o.description.getD "") eid bn = some b →
       ∃ pd', processOutcome ei eid bn mkt pd o = .ok pd' ∧
         lookupTriple pd' (o.description.getD "") eid bn = some b ∧
         ∃ e, alGet pd' (o.description.getD "") = some e ∧ bn ∈ e.bookmakers) ∧
    (∀ (ei : EventInfo) (eid bn : String) (mkt : Market) (pd : PlayersData)
        (o : Outcome) (n t : String),
       o.description.getD "" ≠ "" → o.name = some n →
       ¬ n = "Over" → ¬ n = "Under" →
       lookupTriple pd (o.description.getD "") eid bn = none →
       mkt.last_update = some t →
       ∃ pd', processOutcome ei eid bn mkt pd o = .ok pd' ∧
         lookupTriple pd' (o.description.getD "") eid bn =
           some ⟨none, none, none, t⟩ ∧
         ∃ e, alGet pd' (o.description.getD "") = some e ∧ bn ∈ e.bookmakers) ∧
    (∀ (ei : ChangeEvent) (bn : String) (md om : Market) (ch : ChangesDict)
        (o oo : Outcome) (n : String),
       o.name = some n → o.description.getD "" ≠ "" →
       findOlderOutcome om.outcomes (o.description.getD "") o.name = some oo →
       diffOutcome o oo ≠ [] →
       compareOutcome ei bn md om ch o =
         appendChange ch md.key
           { player := o.description.getD "", bookmaker := bn, bet_type := n,
             event := ei, latest_update := md.last_update,
             changes := diffOutcome o oo }) := by
  refine ⟨?_, ?_, ?_⟩
  · intro ei eid bn mkt pd o n b hdesc hname hno hnu hb
    obtain ⟨pe, ee, hpe, hee, hcell⟩ := lookupTriple_some_split pd _ eid bn b hb
    simp only [processOutcome]
    rw [if_neg hdesc]
    simp only [pEntryOf, eEntryOf, hpe, Option.getD_some, hee, hcell, hname]
    rw [if_neg hno, if_neg hnu]
    refine ⟨alSet pd (o.description.getD "")
      ⟨alSet pe.events eid ⟨ee.info, alSet ee.bookmakers bn b⟩,
        addSet pe.bookmakers bn⟩, rfl, ?_, ?_⟩
    · rw [lookupTriple_alSet_self]
      exact alGet_alSet_self ee.bookmakers bn b
    · exact ⟨_, alGet_alSet_self pd _ _, (mem_addSet _ _ _).mpr (Or.inr rfl)⟩
  · intro ei eid bn mkt pd o n t hdesc hname hno hnu hnone hlu
    have hcell := lookupTriple_none_cell pd (o.description.getD "") eid bn ei hnone
    simp only [processOutcome]
    rw [if_neg hdesc]
    rw [hcell]
    simp only [hlu, hname]
    rw [if_neg hno, if_neg hnu]
    refine ⟨alSet pd (o.description.getD "")
      ⟨alSet (pEntryOf pd (o.description.getD "")).events eid
        ⟨(eEntryOf ei (pEntryOf pd (o.description.getD "")) eid).info,
          alSet (eEntryOf ei (pEntryOf pd (o.description.getD "")) eid).bookmakers bn
            ⟨none, none, none, t⟩⟩,
        addSet (pEntryOf pd (o.description.getD "")).bookmakers bn⟩, rfl, ?_, ?_⟩
    · rw [lookupTriple_alSet_self]
      exact alGet_alSet_self _ bn _
    · exact ⟨_, alGet_alSet_self pd _ _, (mem_addSet _ _ _).mpr (Or.inr rfl)⟩
  · intro ei bn md om ch o oo n hname hdesc hfind hdiff
    simp only [compareOutcome]
    rw [if_neg hdesc]
    simp only [hfind]
    rw [if_neg hdiff]
    simp only [hname, Option.getD_some]

/-! ## The shape of a successful merge step, for C7 and C10 -/

theorem processOutcome_ok_shape (ei : EventInfo) (eid bn : String) (mkt : Market)
    (pd : PlayersData) (o : Outcome) (pd' : PlayersData)
    (h : processOutcome ei eid bn mkt pd o = .ok pd') :
    (o.description.getD "" = "" ∧ pd' = pd) ∨
    (o.description.getD "" ≠ "" ∧
      ∃ b1 : BookmakerOdds,
        (∀ b0, alGet (eEntryOf ei (pEntryOf pd (o.description.getD "")) eid).bookmakers bn
            = some b0 → b1.last_update = b0.last_update) ∧
        (alGet (eEntryOf ei (pEntryOf pd (o.description.getD "")) eid).bookmakers bn
            = none → mkt.last_update = some b1.last_update) ∧
        pd' = alSet pd (o.description.getD "")
          { events := alSet (pEntryOf pd (o.description.getD "")).events eid
              { info := (eEntryOf ei (pEntryOf pd (o.description.getD "")) eid).info,
                bookmakers :=
                  alSet (eEntryOf ei (pEntryOf pd (o.description.getD "")) eid).bookmakers
                    bn b1 },
            bookmakers := addSet (pEntryOf pd (o.description.getD "")).bookmakers bn }) := by
  simp only [processOutcome] at h
  by_cases hdesc : o.description.getD "" = ""
  · rw [if_pos hdesc] at h
    cases h
    exact Or.inl ⟨hdesc, rfl⟩
  · rw [if_neg hdesc] at h
    refine Or.inr ⟨hdesc, ?_⟩
    cases hcell : alGet (eEntryOf ei (pEntryOf pd (o.description.getD "")) eid).bookmakers bn with
    | some b0 =>
      simp only [hcell] at h
      cases hn : o.name with
      | none =>
        simp only [hn] at h
        cases h
      | some n =>
        simp only [hn] at h
        by_cases hno : n = "Over"
        · rw [if_pos hno] at h
          cases hpt : o.point with
          | none =>
            cases hpr : o.price <;> simp only [hpt, hpr] at h <;> cases h
          | some pt =>
            cases hpr : o.price with
            | none =>
              simp only [hpt, hpr] at h
              cases h
            | some pr =>
              simp only [hpt, hpr] at h
              cases h
              exact ⟨{ b0 with line := some pt, over := some pr },
                fun b0' hb0' => (congrArg BookmakerOdds.last_update (Option.some.inj hb0') : b0.last_update = b0'.last_update),
                fun hnone => Option.noConfusion hnone, rfl⟩
        · rw [if_neg hno] at h
          by_cases hnu : n = "Under"
          · rw [if_pos hnu] at h
            cases hpr : o.price with
            | none =>
              simp only [hpr] at h
              cases h
            | some pr =>
              simp only [hpr] at h
              cases h
              exact ⟨{ b0 with under := some pr },
                fun b0' hb0' => (congrArg BookmakerOdds.last_update (Option.some.inj hb0') : b0.last_update = b0'.last_update),
                fun hnone => Option.noConfusion hnone, rfl⟩
          · rw [if_neg hnu] at h
            cases h
            exact ⟨b0,
              fun b0' hb0' => (congrArg BookmakerOdds.last_update (Option.some.inj hb0') : b0.last_update = b0'.last_update),
              fun hnone => Option.noConfusion hnone, rfl⟩
    | none =>
      simp only [hcell] at h
      cases hlu : mkt.last_update with
      | none =>
        simp only [hlu] at h
        cases h
      | some t =>
        simp only [hlu] at h
        cases hn : o.name with
        | none =>
          simp only [hn] at h
          cases h
        | some n =>
          simp only [hn] at h
          by_cases hno : n = "Over"
          · rw [if_pos hno] at h
            cases hpt : o.point with
            | none =>
              cases hpr : o.price <;> simp only [hpt, hpr] at h <;> cases h
            | some pt =>
              cases hpr : o.price with
              | none =>
                simp only [hpt, hpr] at h
                cases h
              | some pr =>
                simp only [hpt, hpr] at h
                cases h
                exact ⟨{ line := some pt, over := some pr, under := none, last_update := t },
                  fun b0' hb0' => Option.noConfusion hb0',
                  fun _ => rfl, rfl⟩
          · rw [if_neg hno] at h
            by_cases hnu : n = "Under"
            · rw [if_pos hnu] at h
              cases hpr : o.price with
              | none =>
                simp only [hpr] at h
                cases h
              | some pr =>
                simp only [hpr] at h
                cases h
                exact ⟨{ line := none, over := none, under := some pr, last_update := t },
                  fun b0' hb0' => Option.noConfusion hb0',
                  fun _ => rfl, rfl⟩
            · rw [if_neg hnu] at h
              cases h
              exact ⟨{ line := none, over := none, under := none, last_update := t },
                fun b0' hb0' => Option.noConfusion hb0',
                fun _ => rfl, rfl⟩

theorem lookupTriple_alSet_update (pd : PlayersData) (p eid : String)
    (ev : List (String × EventEntry)) (ee1 : EventEntry) (B : List String)
    (q qeid qbn : String) :
    lookupTriple (alSet pd p { events := alSet ev eid ee1, bookmakers := B })
        q qeid qbn =
      if q = p then
        (if qeid = eid then alGet ee1.bookmakers qbn
         else
           match alGet ev qeid with
           | none => none
           | some ee => alGet ee.bookmakers qbn)
      else lookupTriple pd q qeid qbn := by
  by_cases hq : q = p
  · subst hq
    by_cases hqe : qeid = eid
    · subst hqe
      simp only [lookupTriple, alGet_alSet_self, if_pos rfl, if_true]
    · simp only [lookupTriple, alGet_alSet_self, if_pos rfl, if_true, if_neg hqe]
      rw [alGet_alSet_ne ev eid qeid ee1 hqe]
  · simp only [lookupTriple, if_neg hq]
    rw [alGet_alSet_ne pd p q _ hq]

/-- Once a cell exists, one merge step preserves its `last_update` (and its
existence), whatever outcome is processed. -/
theorem processOutcome_lastUpdate_frame (ei : EventInfo) (eid bn : String)
    (mkt : Market) (pd : PlayersData) (o : Outcome) (q qeid qbn : String)
    (b : BookmakerOdds) (pd' : PlayersData)
    (hq : lookupTriple pd q qeid qbn = some b)
    (h : processOutcome ei eid bn mkt pd o = .ok pd') :
    ∃ b', lookupTriple pd' q qeid qbn = some b' ∧
      b'.last_update = b.last_update := by
  rcases processOutcome_ok_shape ei eid bn mkt pd o pd' h with
    ⟨-, rfl⟩ | ⟨hdesc, b1, hlast, -, rfl⟩
  · exact ⟨b, hq, rfl⟩
  · rw [lookupTriple_alSet_update]
    obtain ⟨pe, ee, hpe, hee, hcell⟩ := lookupTriple_some_split pd q qeid qbn b hq
    by_cases hqp : q = o.description.getD ""
    · rw [if_pos hqp]
      have hpe' : pEntryOf pd (o.description.getD "") = pe := by
        unfold pEntryOf
        rw [← hqp, hpe]
        rfl
      by_cases hqe : qeid = eid
      · rw [if_pos hqe]
        have hee' : eEntryOf ei (pEntryOf pd (o.description.getD "")) eid = ee := by
          unfold eEntryOf
          rw [hpe', ← hqe, hee]
          rfl
        by_cases hqb : qbn = bn
        · subst hqb
          have hl := hlast b (by rw [hee']; exact hcell)
          refine ⟨b1, ?_, hl⟩
          show alGet (alSet (eEntryOf ei (pEntryOf pd (o.description.getD "")) eid).bookmakers qbn b1) qbn = some b1
          exact alGet_alSet_self _ qbn b1
        · refine ⟨b, ?_, rfl⟩
          show alGet (alSet (eEntryOf ei (pEntryOf pd (o.description.getD "")) eid).bookmakers bn b1) qbn = some b
          rw [alGet_alSet_ne _ _ _ _ hqb, hee']
          exact hcell
      · rw [if_neg hqe]
        rw [hpe']
        simp only [hee]
        exact ⟨b, hcell, rfl⟩
    · rw [if_neg hqp]
      exact ⟨b, hq, rfl⟩

/-- A cell created by a merge step takes its `last_update` from the
market-level timestamp. -/
theorem processOutcome_create_lastUpdate (ei : EventInfo) (eid bn : String)
    (mkt : Market) (pd : PlayersData) (o : Outcome) (pd' : PlayersData)
    (hdesc : o.description.getD "" ≠ "")
    (hnone : lookupTriple pd (o.description.getD "") eid bn = none)
    (h : processOutcome ei eid bn mkt pd o = .ok pd') :
    ∃ t, mkt.last_update = some t ∧
      ∃ b', lookupTriple pd' (o.description.getD "") eid bn = some b' ∧
        b'.last_update = t := by
  rcases processOutcome_ok_shape ei eid bn mkt pd o pd' h with
    ⟨hd0, -⟩ | ⟨-, b1, -, hcreate, rfl⟩
  · exact absurd hd0 hdesc
  · have hcellnone := lookupTriple_none_cell pd (o.description.getD "") eid bn ei hnone
    refine ⟨b1.last_update, hcreate hcellnone, b1, ?_, rfl⟩
    rw [lookupTriple_alSet_update, if_pos rfl, if_pos rfl]
    show alGet (alSet (eEntryOf ei (pEntryOf pd (o.description.getD "")) eid).bookmakers bn b1) bn = some b1
    exact alGet_alSet_self _ bn b1

/-- C10: a cell's `last_update` is written only at creation, from the
market-level timestamp, and never overwritten afterwards: one merge step
preserves every existing cell's `last_update`, a created cell takes the
market's timestamp, and whole-document merging preserves any existing
cell's `last_update` while later outcomes overwrite only the value
fields. -/
theorem C10_last_update_never_overwritten :
    (∀ (ei : EventInfo) (eid bn : String) (mkt : Market) (pd : PlayersData)
        (o : Outcome) (q qeid qbn : String) (b : BookmakerOdds)
        (pd' : PlayersData),
       lookupTriple pd q qeid qbn = some b →
       processOutcome ei eid bn mkt pd o = .ok pd' →
       ∃ b', lookupTriple pd' q qeid qbn = some b' ∧
         b'.last_update = b.last_update) ∧
    (∀ (ei : EventInfo) (eid bn : String) (mkt : Market) (pd : PlayersData)
        (o : Outcome) (pd' : PlayersData),
       o.description.getD "" ≠ "" →
       lookupTriple pd (o.description.getD "") eid bn = none →
       processOutcome ei eid bn mkt pd o = .ok pd' →
       ∃ t, mkt.last_update = some t ∧
         ∃ b', lookupTriple pd' (o.description.getD "") eid bn = some b' ∧
           b'.last_update = t) ∧
    (∀ (q qeid qbn u : String) (pd : PlayersData) (ds : List EventData)
        (pd' : PlayersData),
       processEventList pd ds = .ok pd' →
       (∃ b, lookupTriple pd q qeid qbn = some b ∧ b.last_update = u) →
       ∃ b', lookupTriple pd' q qeid qbn = some b' ∧ b'.last_update = u) := by
  refine ⟨processOutcome_lastUpdate_frame, processOutcome_create_lastUpdate, ?_⟩
  intro q qeid qbn u pd ds pd' h hP
  unfold processEventList at h
  refine @foldE_pres EventData PlayersData
    (fun s => ∃ b, lookupTriple s q qeid qbn = some b ∧ b.last_update = u)
    processEvent ?_ ds pd pd' hP h
  intro pd₁ ev pd₂ hP₁ hev
  unfold processEvent at hev
  refine @foldE_pres Bookmaker PlayersData
    (fun s => ∃ b, lookupTriple s q qeid qbn = some b ∧ b.last_update = u)
    _ ?_ _ _ _ hP₁ hev
  intro pd₃ bm pd₄ hP₃ hbm
  unfold processBookmaker at hbm
  refine @foldE_pres Market PlayersData
    (fun s => ∃ b, lookupTriple s q qeid qbn = some b ∧ b.last_update = u)
    _ ?_ _ _ _ hP₃ hbm
  intro pd₅ m pd₆ hP₅ hm
  unfold processMarket at hm
  refine @foldE_pres Outcome PlayersData
    (fun s => ∃ b, lookupTriple s q qeid qbn = some b ∧ b.last_update = u)
    _ ?_ _ _ _ hP₅ hm
  intro pd₇ o pd₈ hP₇ ho
  obtain ⟨b, hb, hu⟩ := hP₇
  obtain ⟨b', hb', he⟩ :=
    processOutcome_lastUpdate_frame _ _ _ _ _ _ _ _ _ _ _ hb ho
  exact ⟨b', hb', he.trans hu⟩

/-! ## C7: later documents overwrite the value fields of a matched triple -/

theorem foldE_singleton {α β : Type} (f : β → α → Except Unit β) (b : β) (a : α) :
    foldE f b [a] = f b a := by
  unfold foldE
  cases f b a <;> rfl

theorem processEventList_append_ok (pd pd₁ : PlayersData)
    (ds₁ ds₂ : List EventData) (h : processEventList pd ds₁ = .ok pd₁) :
    processEventList pd (ds₁ ++ ds₂) = processEventList pd₁ ds₂ := by
  unfold processEventList at h ⊢
  rw [foldE_append]
  simp only [h]

theorem lookupTriple_sortMap (pd : PlayersData) (p eid bn : String) :
    lookupTriple
        (pd.map fun pe =>
          (pe.1, { events := pe.2.events, bookmakers := sortStrings pe.2.bookmakers }))
        p eid bn =
      lookupTriple pd p eid bn := by
  unfold lookupTriple
  induction pd with
  | nil => simp [alGet]
  | cons hd tl ih =>
    obtain ⟨k, v⟩ := hd
    by_cases hk : k = p
    · subst hk
      simp [alGet]
    · simpa [alGet, hk] using ih

/-- One merge step with an Over outcome for an existing (player, event,
bookmaker) cell overwrites `line` and `over` unconditionally (lines
140-141), keeping `under` and `last_update`. -/
theorem processOutcome_over_overwrites (ei : EventInfo) (eid bn : String)
    (mkt : Market) (pd : PlayersData) (o : Outcome) (p : String)
    (b : BookmakerOdds) (x y : Rat)
    (hb : lookupTriple pd p eid bn = some b)
    (hdo : o.description = some p) (hp : p ≠ "")
    (hnameO : o.name = some "Over") (hpt : o.point = some x)
    (hpr : o.price = some y) :
    ∃ pd', processOutcome ei eid bn mkt pd o = .ok pd' ∧
      lookupTriple pd' p eid bn =
        some { line := some x, over := some y, under := b.under,
               last_update := b.last_update } := by
  obtain ⟨pe, ee, hpe, hee, hcell⟩ := lookupTriple_some_split pd p eid bn b hb
  have hpe' : pEntryOf pd p = pe := by
    unfold pEntryOf
    rw [hpe]
    rfl
  have hee' : eEntryOf ei pe eid = ee := by
    unfold eEntryOf
    rw [hee]
    rfl
  have houtc : processOutcome ei eid bn mkt pd o =
      .ok (alSet pd p
        { events := alSet pe.events eid
            { info := ee.info,
              bookmakers := alSet ee.bookmakers bn
                { line := some x, over := some y, under := b.under,
                  last_update := b.last_update } },
          bookmakers := addSet pe.bookmakers bn }) := by
    simp only [processOutcome, hdo, Option.getD_some]
    rw [if_neg hp]
    simp only [hpe', hee', hcell, hnameO, hpt, hpr]
    simp
  refine ⟨_, houtc, ?_⟩
  rw [lookupTriple_alSet_update, if_pos rfl, if_pos rfl]
  exact alGet_alSet_self ee.bookmakers bn _

/-- One merge step with an Under outcome for an existing (player, event,
bookmaker) cell overwrites `under` unconditionally (line 143), keeping
`line`, `over` and `last_update`. -/
theorem processOutcome_under_overwrites (ei : EventInfo) (eid bn : String)
    (mkt : Market) (pd : PlayersData) (o : Outcome) (p : String)
    (b : BookmakerOdds) (z : Rat)
    (hb : lookupTriple pd p eid bn = some b)
    (hdo : o.description = some p) (hp : p ≠ "")
    (hnameU : o.name = some "Under") (hpr : o.price = some z) :
    ∃ pd', processOutcome ei eid bn mkt pd o = .ok pd' ∧
      lookupTriple pd' p eid bn =
        some { line := b.line, over := b.over, under := some z,
               last_update := b.last_update } := by
  obtain ⟨pe, ee, hpe, hee, hcell⟩ := lookupTriple_some_split pd p eid bn b hb
  have hpe' : pEntryOf pd p = pe := by
    unfold pEntryOf
    rw [hpe]
    rfl
  have hee' : eEntryOf ei pe eid = ee := by
    unfold eEntryOf
    rw [hee]
    rfl
  have houtc : processOutcome ei eid bn mkt pd o =
      .ok (alSet pd p
        { events := alSet pe.events eid
            { info := ee.info,
              bookmakers := alSet ee.bookmakers bn
                { line := b.line, over := b.over, under := some z,
                  last_update := b.last_update } },
          bookmakers := addSet pe.bookmakers bn }) := by
    simp only [processOutcome, hdo, Option.getD_some]
    rw [if_neg hp]
    simp only [hpe', hee', hcell, hnameU, hpr]
    simp
  refine ⟨_, houtc, ?_⟩
  rw [lookupTriple_alSet_update, if_pos rfl, if_pos rfl]
  exact alGet_alSet_self ee.bookmakers bn _

/-- Appending one single-outcome document to a merge run: the final view is
the run's state after that outcome's merge step, with the bookmaker sets
sorted (which leaves every cell unchanged). -/
theorem process_append_single (ds : List EventData) (pd₀ : PlayersData)
    (p bn : String) (d : EventData) (mkt : Market) (o : Outcome)
    (pd₁ : PlayersData) (bNew : BookmakerOdds)
    (h₀ : processEventList [] ds = .ok pd₀)
    (hbms : d.bookmakers = [⟨bn, [mkt]⟩])
    (houts : mkt.outcomes = [o])
    (houtc : processOutcome ⟨d.id, d.home_team, d.away_team, d.commence_time⟩
        d.id bn mkt pd₀ o = .ok pd₁)
    (hlook : lookupTriple pd₁ p d.id bn = some bNew) :
    ∃ pd', process_market_data (ds ++ [d]) = .ok pd' ∧
      lookupTriple pd' p d.id bn = some bNew := by
  have hevent : processEvent pd₀ d = .ok pd₁ := by
    unfold processEvent
    rw [hbms, foldE_singleton]
    unfold processBookmaker
    dsimp only
    rw [foldE_singleton]
    unfold processMarket
    rw [houts, foldE_singleton]
    exact houtc
  have hlist : processEventList pd₀ [d] = .ok pd₁ := by
    unfold processEventList
    rw [foldE_singleton]
    exact hevent
  unfold process_market_data
  rw [processEventList_append_ok [] pd₀ ds [d] h₀]
  simp only [hlist]
  refine ⟨_, rfl, ?_⟩
  rw [lookupTriple_sortMap]
  exact hlook

/-- C7: last-write-wins for both sides.  A later-processed Over outcome for
an already-populated (player, event, bookmaker) cell overwrites `line` and
`over`, and a later-processed Under outcome overwrites `under`, the other
fields keeping their earlier values — both at the level of one merge step
(so anywhere inside any later document) and end to end through
`process_market_data` for a later document carrying the outcome.  Each
field is a single slot, so at most one line value and at most one price
per side is retained per triple. -/
theorem C7_last_write_wins :
    (∀ (ei : EventInfo) (eid bn : String) (mkt : Market) (pd : PlayersData)
        (o : Outcome) (p : String) (b : BookmakerOdds) (x y : Rat),
       lookupTriple pd p eid bn = some b →
       o.description = some p → p ≠ "" → o.name = some "Over" →
       o.point = some x → o.price = some y →
       ∃ pd', processOutcome ei eid bn mkt pd o = .ok pd' ∧
         lookupTriple pd' p eid bn =
           some { line := some x, over := some y, under := b.under,
                  last_update := b.last_update }) ∧
    (∀ (ei : EventInfo) (eid bn : String) (mkt : Market) (pd : PlayersData)
        (o : Outcome) (p : String) (b : BookmakerOdds) (z : Rat),
       lookupTriple pd p eid bn = some b →
       o.description = some p → p ≠ "" → o.name = some "Under" →
       o.price = some z →
       ∃ pd', processOutcome ei eid bn mkt pd o = .ok pd' ∧
         lookupTriple pd' p eid bn =
           some { line := b.line, over := b.over, under := some z,
                  last_update := b.last_update }) ∧
    (∀ (ds : List EventData) (pd₀ : PlayersData) (p eid bn : String)
        (b : BookmakerOdds) (d : EventData) (mkt : Market) (o : Outcome)
        (x y : Rat),
       processEventList [] ds = .ok pd₀ →
       lookupTriple pd₀ p eid bn = some b →
       d.id = eid → d.bookmakers = [⟨bn, [mkt]⟩] → mkt.outcomes = [o] →
       o.description = some p → p ≠ "" → o.name = some "Over" →
       o.point = some x → o.price = some y →
       ∃ pd', process_market_data (ds ++ [d]) = .ok pd' ∧
         lookupTriple pd' p eid bn =
           some { line := some x, over := some y, under := b.under,
                  last_update := b.last_update }) ∧
    (∀ (ds : List EventData) (pd₀ : PlayersData) (p eid bn : String)
        (b : BookmakerOdds) (d : EventData) (mkt : Market) (o : Outcome)
        (z : Rat),
       processEventList [] ds = .ok pd₀ →
       lookupTriple pd₀ p eid bn = some b →
       d.id = eid → d.bookmakers = [⟨bn, [mkt]⟩] → mkt.outcomes = [o] →
       o.description = some p → p ≠ "" → o.name = some "Under" →
       o.price = some z →
       ∃ pd', process_market_data (ds ++ [d]) = .ok pd' ∧
         lookupTriple pd' p eid bn =
           some { line := b.line, over := b.over, under := some z,
                  last_update := b.last_update }) := by
  refine ⟨fun ei eid bn mkt pd o p b x y hb hdo hp hn hpt hpr =>
      processOutcome_over_overwrites ei eid bn mkt pd o p b x y hb hdo hp hn hpt hpr,
    fun ei eid bn mkt pd o p b z hb hdo hp hn hpr =>
      processOutcome_under_overwrites ei eid bn mkt pd o p b z hb hdo hp hn hpr,
    ?_, ?_⟩
  · intro ds pd₀ p eid bn b d mkt o x y h₀ hb hid hbms houts hdo hp hn hpt hpr
    subst hid
    obtain ⟨pd₁, houtc, hlook⟩ :=
      processOutcome_over_overwrites
        ⟨d.id, d.home_team, d.away_team, d.commence_time⟩ d.id bn mkt pd₀ o p b
        x y hb hdo hp hn hpt hpr
    exact process_append_single ds pd₀ p bn d mkt o pd₁ _ h₀ hbms houts houtc hlook
  · intro ds pd₀ p eid bn b d mkt o z h₀ hb hid hbms houts hdo hp hn hpr
    subst hid
    obtain ⟨pd₁, houtc, hlook⟩ :=
      processOutcome_under_overwrites
        ⟨d.id, d.home_team, d.away_team, d.commence_time⟩ d.id bn mkt pd₀ o p b
        z hb hdo hp hn hpr
    exact process_append_single ds pd₀ p bn d mkt o pd₁ _ h₀ hbms houts houtc hlook

/-- First C7 witness document: Over 24 at 18, timestamp T1. -/
def dFirstC7 : EventData :=
  ⟨"E1", "Ha", "Aw", "T0",
    [⟨"BookA", [⟨"player_points", some "T1",
      [⟨some "Over", some "John Doe", some 24, some 18⟩]⟩]⟩]⟩

/-- The later C7 witness outcome: Over 25 at 19. -/
def oLaterC7 : Outcome := ⟨some "Over", some "John Doe", some 25, some 19⟩

/-- The later C7 witness market, timestamp T2. -/
def mktLaterC7 : Market := ⟨"player_points", some "T2", [oLaterC7]⟩

/-- The later C7 witness document. -/
def dLaterC7 : EventData := ⟨"E1", "Ha", "Aw", "T0", [⟨"BookA", [mktLaterC7]⟩]⟩

/-- First Under-side C7 witness document: Over 24 at 18 and Under at 20,
timestamp T1. -/
def dFirstC7u : EventData :=
  ⟨"E1", "Ha", "Aw", "T0",
    [⟨"BookA", [⟨"player_points", some "T1",
      [⟨some "Over", some "John Doe", some 24, some 18⟩,
       ⟨some "Under", some "John Doe", some 24, some 20⟩]⟩]⟩]⟩

/-- The later Under-side C7 witness outcome: Under at 21. -/
def oLaterC7u : Outcome := ⟨some "Under", some "John Doe", some 24, some 21⟩

/-- The later Under-side C7 witness market, timestamp T2. -/
def mktLaterC7u : Market := ⟨"player_points", some "T2", [oLaterC7u]⟩

/-- The later Under-side C7 witness document. -/
def dLaterC7u : EventData :=
  ⟨"E1", "Ha", "Aw", "T0", [⟨"BookA", [mktLaterC7u]⟩]⟩

/-- Witness for C7: after merging, the cell holds the later document's
line/over (Over case) or under (Under case) and the first document's other
values and timestamp. -/
theorem C7_last_write_wins_w :
    (∃ pd', process_market_data ([dFirstC7] ++ [dLaterC7]) = .ok pd' ∧
      lookupTriple pd' "John Doe" "E1" "BookA" =
        some { line := some 25, over := some 19, under := none,
               last_update := "T1" }) ∧
    (∃ pd', process_market_data ([dFirstC7u] ++ [dLaterC7u]) = .ok pd' ∧
      lookupTriple pd' "John Doe" "E1" "BookA" =
        some { line := some 24, over := some 18, under := some 21,
               last_update := "T1" }) :=
  ⟨C7_last_write_wins.2.2.1 [dFirstC7]
      [("John Doe",
        ⟨[("E1", ⟨⟨"E1", "Ha", "Aw", "T0"⟩,
          [("BookA", ⟨some 24, some 18, none, "T1"⟩)]⟩)], ["BookA"]⟩)]
      "John Doe" "E1" "BookA" ⟨some 24, some 18, none, "T1"⟩
      dLaterC7 mktLaterC7 oLaterC7 25 19
      rfl rfl rfl rfl rfl rfl (by decide) rfl rfl rfl,
   C7_last_write_wins.2.2.2 [dFirstC7u]
      [("John Doe",
        ⟨[("E1", ⟨⟨"E1", "Ha", "Aw", "T0"⟩,
          [("BookA", ⟨some 24, some 18, some 20, "T1"⟩)]⟩)], ["BookA"]⟩)]
      "John Doe" "E1" "BookA" ⟨some 24, some 18, some 20, "T1"⟩
      dLaterC7u mktLaterC7u oLaterC7u 21
      rfl rfl rfl rfl rfl rfl (by decide) rfl rfl⟩

theorem alGet_sortMap (l : PlayersData) (k : String) :
    alGet (l.map fun pe =>
        (pe.1, ({ events := pe.2.events,
                  bookmakers := sortStrings pe.2.bookmakers } : PlayerEntry))) k =
      (alGet l k).map fun e =>
        ({ events := e.events, bookmakers := sortStrings e.bookmakers } : PlayerEntry) := by
  induction l with
  | nil => simp [alGet]
  | cons hd tl ih =>
    obtain ⟨k', v⟩ := hd
    by_cases hk : k' = k
    · simp [alGet, hk]
    · simp [alGet, hk, ih]

/-! ## C8: the bookmakers set is exactly the names seen, sorted -/

/-- The player's accumulated bookmaker-name set in the merge state. -/
def bmSet (pd : PlayersData) (p : String) : List String :=
  ((alGet pd p).map PlayerEntry.bookmakers).getD []

theorem processOutcome_bmSet (ei : EventInfo) (eid bn : String) (mkt : Market)
    (pd : PlayersData) (o : Outcome) (pd' : PlayersData) (p : String)
    (hp : p ≠ "") (h : processOutcome ei eid bn mkt pd o = .ok pd') :
    bmSet pd' p = List.foldl addSet (bmSet pd p)
      (if o.description.getD "" = p then [bn] else []) ∧
    ((alGet pd' p).isSome = true ↔ ((alGet pd p).isSome = true ∨
      (if o.description.getD "" = p then [bn] else ([] : List String)) ≠ [])) := by
  rcases processOutcome_ok_shape ei eid bn mkt pd o pd' h with
    ⟨hdesc, rfl⟩ | ⟨hdesc, b1, -, -, rfl⟩
  · have hne : ¬ o.description.getD "" = p := fun hh => hp (hh.symm.trans hdesc)
    rw [if_neg hne]
    simp
  · by_cases hdp : o.description.getD "" = p
    · rw [if_pos hdp]
      rw [hdp]
      constructor
      · unfold bmSet
        rw [alGet_alSet_self]
        simp only [Option.map_some, Option.getD_some, List.foldl_cons, List.foldl_nil]
        unfold pEntryOf
        cases halg : alGet pd p
        · simp [bmSet, halg]
        · simp [bmSet, halg]
      · rw [alGet_alSet_self]
        simp
    · rw [if_neg hdp]
      have hne : ¬ p = o.description.getD "" := fun hh => hdp hh.symm
      unfold bmSet
      rw [alGet_alSet_ne pd _ p _ hne]
      simp

theorem foldE_mentions {α : Type} (f : PlayersData → α → Except Unit PlayersData)
    (p : String) (ment : α → List String)
    (hstep : ∀ pd a pd', f pd a = .ok pd' →
      bmSet pd' p = List.foldl addSet (bmSet pd p) (ment a) ∧
      ((alGet pd' p).isSome = true ↔ ((alGet pd p).isSome = true ∨ ment a ≠ []))) :
    ∀ (l : List α) (pd pd' : PlayersData), foldE f pd l = .ok pd' →
      bmSet pd' p = List.foldl addSet (bmSet pd p) (l.flatMap ment) ∧
      ((alGet pd' p).isSome = true ↔
        ((alGet pd p).isSome = true ∨ l.flatMap ment ≠ [])) := by
  intro l
  induction l with
  | nil =>
    intro pd pd' h
    simp only [foldE, Except.ok.injEq] at h
    subst h
    simp
  | cons a t ih =>
    intro pd pd' h
    simp only [foldE] at h
    cases hfa : f pd a with
    | error e => rw [hfa] at h; cases h
    | ok pd₁ =>
      rw [hfa] at h
      obtain ⟨hB, hE⟩ := hstep pd a pd₁ hfa
      obtain ⟨hB', hE'⟩ := ih pd₁ pd' h
      constructor
      · rw [hB', hB, List.flatMap_cons, List.foldl_append]
      · rw [hE', hE, List.flatMap_cons]
        simp only [ne_eq, List.append_eq_nil]
        tauto

theorem processEventList_bmSet (p : String) (hp : p ≠ "") :
    ∀ (ds : List EventData) (pd pd' : PlayersData),
      processEventList pd ds = .ok pd' →
      bmSet pd' p = List.foldl addSet (bmSet pd p) (listMentions ds p) ∧
      ((alGet pd' p).isSome = true ↔
        ((alGet pd p).isSome = true ∨ listMentions ds p ≠ [])) := by
  intro ds pd pd' h
  unfold processEventList at h
  exact foldE_mentions processEvent p (fun ev => eventMentions ev p)
    (fun pd₁ ev pd₂ hev => by
      unfold processEvent at hev
      exact foldE_mentions (processBookmaker _ ev.id) p
        (fun bm => bookmakerMentions bm p)
        (fun pd₃ bm pd₄ hbm => by
          unfold processBookmaker at hbm
          exact foldE_mentions (processMarket _ ev.id bm.title) p
            (fun m => marketMentions bm.title m p)
            (fun pd₅ m pd₆ hm => by
              unfold processMarket at hm
              exact foldE_mentions (processOutcome _ ev.id bm.title m) p
                (fun o => if o.description.getD "" = p then [bm.title] else [])
                (fun pd₇ o pd₈ ho =>
                  processOutcome_bmSet _ ev.id bm.title m pd₇ o pd₈ p hp ho)
                m.outcomes pd₅ pd₆ hm)
            bm.markets pd₃ pd₄ hbm)
        ev.bookmakers pd₁ pd₂ hev)
    ds pd pd' h

theorem processEventList_empty_key :
    ∀ (ds : List EventData) (pd pd' : PlayersData),
      processEventList pd ds = .ok pd' → alGet pd "" = none →
      alGet pd' "" = none := by
  intro ds pd pd' h h0
  unfold processEventList at h
  refine @foldE_pres EventData PlayersData (fun s => alGet s "" = none)
    processEvent ?_ ds pd pd' h0 h
  intro pd₁ ev pd₂ hP₁ hev
  unfold processEvent at hev
  refine @foldE_pres Bookmaker PlayersData (fun s => alGet s "" = none)
    _ ?_ _ _ _ hP₁ hev
  intro pd₃ bm pd₄ hP₃ hbm
  unfold processBookmaker at hbm
  refine @foldE_pres Market PlayersData (fun s => alGet s "" = none)
    _ ?_ _ _ _ hP₃ hbm
  intro pd₅ m pd₆ hP₅ hm
  unfold processMarket at hm
  refine @foldE_pres Outcome PlayersData (fun s => alGet s "" = none)
    _ ?_ _ _ _ hP₅ hm
  intro pd₇ o pd₈ hP₇ ho
  rcases processOutcome_ok_shape _ _ _ _ _ _ _ ho with
    ⟨-, rfl⟩ | ⟨hdesc, b1, -, -, rfl⟩
  · exact hP₇
  · rw [alGet_alSet_ne _ _ _ _ (fun hh => hdesc hh.symm)]
    exact hP₇

theorem mem_ite_singleton (c : Prop) [Decidable c] (s t : String) :
    (t ∈ if c then [s] else []) ↔ c ∧ t = s := by
  by_cases h : c <;> simp [h]

theorem mem_listMentions (ds : List EventData) (p t : String) :
    t ∈ listMentions ds p ↔
      ∃ ev ∈ ds, ∃ bm ∈ ev.bookmakers, t = bm.title ∧
        ∃ m ∈ bm.markets, ∃ o ∈ m.outcomes, o.description.getD "" = p := by
  unfold listMentions eventMentions bookmakerMentions marketMentions
  simp only [List.mem_flatMap, mem_ite_singleton]
  constructor
  · rintro ⟨ev, hev, bm, hbm, m, hm, o, ho, hd, ht⟩
    exact ⟨ev, hev, bm, hbm, ht, m, hm, o, ho, hd⟩
  · rintro ⟨ev, hev, bm, hbm, ht, m, hm, o, ho, hd⟩
    exact ⟨ev, hev, bm, hbm, m, hm, o, ho, hd, ht⟩

theorem mem_seenBookmakers (ds : List EventData) (p t : String) :
    t ∈ seenBookmakers ds p ↔
      ∃ ev ∈ ds, ∃ bm ∈ ev.bookmakers, t = bm.title ∧
        ∃ m ∈ bm.markets, ∃ o ∈ m.outcomes, o.description.getD "" = p := by
  unfold seenBookmakers
  simp only [List.mem_flatMap, mem_ite_singleton, List.any_eq_true, beq_iff_eq]
  constructor
  · rintro ⟨ev, hev, bm, hbm, ⟨m, hm, o, ho, hd⟩, ht⟩
    exact ⟨ev, hev, bm, hbm, ht, m, hm, o, ho, hd⟩
  · rintro ⟨ev, hev, bm, hbm, ht, m, hm, o, ho, hd⟩
    exact ⟨ev, hev, bm, hbm, ⟨m, hm, o, ho, hd⟩, ht⟩

/-- C8: each player's `bookmakers` field of the final view is exactly the
set of bookmaker titles carrying some outcome for that player anywhere in
the input, without duplicates and sorted; and the field is unchanged under
any permutation of the input documents. -/
theorem C8_bookmakers_sorted_seen_set :
    (∀ (ds : List EventData) (pd : PlayersData) (p : String) (e : PlayerEntry),
       process_market_data ds = .ok pd → alGet pd p = some e →
       e.bookmakers = sortStrings ((seenBookmakers ds p).dedup)) ∧
    (∀ (ds₁ ds₂ : List EventData) (pd₁ pd₂ : PlayersData) (p : String),
       ds₁.Perm ds₂ → process_market_data ds₁ = .ok pd₁ →
       process_market_data ds₂ = .ok pd₂ →
       (alGet pd₁ p).map PlayerEntry.bookmakers =
         (alGet pd₂ p).map PlayerEntry.bookmakers) := by
  have hsplit : ∀ (ds : List EventData) (pd : PlayersData),
      process_market_data ds = .ok pd →
      ∃ pd₀, processEventList [] ds = .ok pd₀ ∧
        pd = pd₀.map fun pe =>
          (pe.1, { events := pe.2.events,
                   bookmakers := sortStrings pe.2.bookmakers }) := by
    intro ds pd h
    unfold process_market_data at h
    cases h₀ : processEventList [] ds with
    | error e' => rw [h₀] at h; cases h
    | ok pd₀ =>
      rw [h₀] at h
      cases h
      exact ⟨pd₀, rfl, rfl⟩
  have hchar : ∀ (ds : List EventData) (pd₀ : PlayersData) (p : String),
      p ≠ "" → processEventList [] ds = .ok pd₀ →
      bmSet pd₀ p = List.foldl addSet [] (listMentions ds p) ∧
      ((alGet pd₀ p).isSome = true ↔ listMentions ds p ≠ []) := by
    intro ds pd₀ p hp h₀
    obtain ⟨hB, hE⟩ := processEventList_bmSet p hp ds [] pd₀ h₀
    refine ⟨?_, ?_⟩
    · rw [hB]
      rfl
    · rw [hE]
      simp [alGet]
  constructor
  · intro ds pd p e h hget
    obtain ⟨pd₀, h₀, rfl⟩ := hsplit ds pd h
    rw [alGet_sortMap] at hget
    have hp : p ≠ "" := by
      intro hp0
      subst hp0
      rw [processEventList_empty_key ds [] pd₀ h₀ rfl] at hget
      simp at hget
    obtain ⟨hB, -⟩ := hchar ds pd₀ p hp h₀
    cases halg : alGet pd₀ p with
    | none =>
      rw [halg] at hget
      simp at hget
    | some e₀ =>
      rw [halg] at hget
      simp only [Option.map_some', Option.some.injEq] at hget
      subst hget
      have hbm : e₀.bookmakers = List.foldl addSet [] (listMentions ds p) := by
        unfold bmSet at hB
        rw [halg] at hB
        simpa using hB
      show sortStrings e₀.bookmakers = sortStrings ((seenBookmakers ds p).dedup)
      refine sortStrings_eq_of_mem _ _ ?_ (List.nodup_dedup _) ?_
      · rw [hbm]
        exact foldl_addSet_nodup _ [] List.nodup_nil
      · intro t
        rw [hbm, mem_foldl_addSet, List.mem_dedup, mem_listMentions,
          mem_seenBookmakers]
        simp
  · intro ds₁ ds₂ pd₁ pd₂ p hperm h₁ h₂
    obtain ⟨pd₀₁, h₀₁, rfl⟩ := hsplit ds₁ pd₁ h₁
    obtain ⟨pd₀₂, h₀₂, rfl⟩ := hsplit ds₂ pd₂ h₂
    rw [alGet_sortMap, alGet_sortMap]
    by_cases hp : p = ""
    · subst hp
      rw [processEventList_empty_key ds₁ [] pd₀₁ h₀₁ rfl,
        processEventList_empty_key ds₂ [] pd₀₂ h₀₂ rfl]
    · have hmem : ∀ t, t ∈ listMentions ds₁ p ↔ t ∈ listMentions ds₂ p := by
        intro t
        rw [mem_listMentions, mem_listMentions]
        constructor
        · rintro ⟨ev, hev, rest⟩
          exact ⟨ev, hperm.mem_iff.mp hev, rest⟩
        · rintro ⟨ev, hev, rest⟩
          exact ⟨ev, hperm.mem_iff.mpr hev, rest⟩
      have hne : (listMentions ds₁ p ≠ []) ↔ (listMentions ds₂ p ≠ []) := by
        rw [ne_eq, ne_eq, List.eq_nil_iff_forall_not_mem,
          List.eq_nil_iff_forall_not_mem]
        constructor
        · intro h1 h2
          exact h1 fun t ht => h2 t ((hmem t).mp ht)
        · intro h1 h2
          exact h1 fun t ht => h2 t ((hmem t).mpr ht)
      obtain ⟨hB₁, hE₁⟩ := hchar ds₁ pd₀₁ p hp h₀₁
      obtain ⟨hB₂, hE₂⟩ := hchar ds₂ pd₀₂ p hp h₀₂
      cases halg₁ : alGet pd₀₁ p with
      | none =>
        cases halg₂ : alGet pd₀₂ p with
        | none => rfl
        | some e₂ =>
          rw [halg₁] at hE₁
          rw [halg₂] at hE₂
          simp only [Option.isSome_none, Option.isSome_some] at hE₁ hE₂
          exact absurd (hne.mpr (hE₂.mp trivial)) (fun hh => by simp [hh] at hE₁)
      | some e₁ =>
        cases halg₂ : alGet pd₀₂ p with
        | none =>
          rw [halg₁] at hE₁
          rw [halg₂] at hE₂
          simp only [Option.isSome_none, Option.isSome_some] at hE₁ hE₂
          exact absurd (hne.mp (hE₁.mp trivial)) (fun hh => by simp [hh] at hE₂)
        | some e₂ =>
          have hbm₁ : e₁.bookmakers = List.foldl addSet [] (listMentions ds₁ p) := by
            unfold bmSet at hB₁
            rw [halg₁] at hB₁
            simpa using hB₁
          have hbm₂ : e₂.bookmakers = List.foldl addSet [] (listMentions ds₂ p) := by
            unfold bmSet at hB₂
            rw [halg₂] at hB₂
            simpa using hB₂
          simp only [Option.map_some']
          show some (sortStrings e₁.bookmakers) = some (sortStrings e₂.bookmakers)
          refine congrArg some (sortStrings_eq_of_mem _ _ ?_ ?_ ?_)
          · rw [hbm₁]
            exact foldl_addSet_nodup _ [] List.nodup_nil
          · rw [hbm₂]
            exact foldl_addSet_nodup _ [] List.nodup_nil
          · intro t
            rw [hbm₁, hbm₂, mem_foldl_addSet, mem_foldl_addSet]
            simp only [List.not_mem_nil, false_or]
            exact hmem t
